import Mathlib

/-!
# Surface scattering (core/reflection.h): a shallow embedding

The declarations below follow `src/src/core/reflection.h`.

Conventions of the embedding

* The C++ type `float` is an arbitrary linearly ordered field `F` (exact
  arithmetic): rounding, overflow, underflow, infinities and NaN are outside
  the model.  Every definition is computable as soon as `F` is (for example
  `F = ℚ`).  The one function whose result depends on rounding,
  `SameHemisphere`, takes the multiplication as a parameter; the rounded
  product of two values of the type `float` is `Float32.mul`, on `ℚ`.
* A `Spectrum` has `n` samples, `n` being a parameter.
* The class hierarchy under `BxDF` is the closed sum type `BxDF`; every
  alternative stores the inherited member `type` followed by the members of
  the class.  A virtual method is a function defined by cases on that sum.
  A method that the header only declares (its body is in `reflection.cpp`)
  is passed to the dispatching function as a parameter.
* A failed `Assert` is the error alternative of `Except`.
* The library functions `sqrtf` and `powf` and the constants `INV_TWOPI` and
  `M_PI` of `pbrt.h` are parameters of the definitions that use them; a
  theorem that needs a property of one of them states it as a hypothesis.
-/

set_option linter.dupNamespace false

namespace PBRT

/-! ## Types the header takes from other headers -/

/-- Modelled from the spec: the class `Vector` of `geometry.h`, which is not
among the sources; a direction with the three coordinates `x`, `y`, `z` that
`reflection.h` reads. -/
structure Vector (F : Type) where
  x : F
  y : F
  z : F
deriving DecidableEq

/-- Modelled from the spec: the class `Normal` of `geometry.h`, which is not
among the sources; a surface normal with three coordinates. -/
structure Normal (F : Type) where
  x : F
  y : F
  z : F
deriving DecidableEq

/-- Modelled from the spec: the class `Point` of `geometry.h`, which is not
among the sources; a position with three coordinates. -/
structure Point (F : Type) where
  x : F
  y : F
  z : F
deriving DecidableEq

/-- Modelled from the spec: the class `Spectrum` of `spectrum.h`, which is not
among the sources; "a fixed-length vector over wavelength samples".  The
member `c` is the array of the `n` sample values. -/
@[ext]
structure Spectrum (F : Type) (n : Nat) where
  c : Fin n → F

/-- Modelled from the spec: the converting constructor `Spectrum(float v)` of
`spectrum.h`; every sample is set to `v`. -/
def Spectrum.ofFloat {F : Type} {n : Nat} (v : F) : Spectrum F n :=
  ⟨fun _ => v⟩

/-- Modelled from the spec: `Spectrum::operator*(const Spectrum &)` of
`spectrum.h`; the product is taken sample by sample. -/
instance {F : Type} {n : Nat} [Mul F] : Mul (Spectrum F n) :=
  ⟨fun s t => ⟨fun i => s.c i * t.c i⟩⟩

/-- Modelled from the spec: `Spectrum::operator+(const Spectrum &)` of
`spectrum.h`; the sum is taken sample by sample. -/
instance {F : Type} {n : Nat} [Add F] : Add (Spectrum F n) :=
  ⟨fun s t => ⟨fun i => s.c i + t.c i⟩⟩

/-- Modelled from the spec: `Spectrum::operator-(const Spectrum &)` of
`spectrum.h`; the difference is taken sample by sample. -/
instance {F : Type} {n : Nat} [Sub F] : Sub (Spectrum F n) :=
  ⟨fun s t => ⟨fun i => s.c i - t.c i⟩⟩

/-- Modelled from the spec: `operator*(float, const Spectrum &)` of
`spectrum.h`, the "scaling" of a spectral value; every sample is multiplied by
the number. -/
instance {F : Type} {n : Nat} [Mul F] : HMul F (Spectrum F n) (Spectrum F n) :=
  ⟨fun a s => ⟨fun i => a * s.c i⟩⟩

/-- Modelled from the spec: `Dot(const Vector &, const Vector &)` of
`geometry.h`, which is not among the sources; the dot product of two
directions. -/
def Dot {F : Type} [Add F] [Mul F] (v1 v2 : Vector F) : F :=
  v1.x * v2.x + v1.y * v2.y + v1.z * v2.z

/-- Modelled from the spec: `Dot(const Vector &, const Normal &)` of
`geometry.h`, which is not among the sources; the dot product of a direction
and a normal. -/
def DotVN {F : Type} [Add F] [Mul F] (v1 : Vector F) (n2 : Normal F) : F :=
  v1.x * n2.x + v1.y * n2.y + v1.z * n2.z

/-- Modelled from the spec: `AbsDot(const Vector &, const Vector &)` of
`geometry.h`, which is not among the sources; the absolute value of the dot
product. -/
def AbsDot {F : Type} [LinearOrderedField F] (v1 v2 : Vector F) : F :=
  |Dot v1 v2|

/-- Modelled from the spec: `Clamp(float val, float low, float high)` of
`pbrt.h`, which is not among the sources; the value "clamped" into the range
from `low` to `high`. -/
def Clamp {F : Type} [LinearOrderedField F] (val low high : F) : F :=
  if val < low then low else if val > high then high else val

/-- Modelled from the spec: `Radians(float deg)` of `pbrt.h`, which is not among
the sources; an angle "in degrees, converted to radians".  The constant
`M_PI` is the parameter `pi`. -/
def Radians {F : Type} [LinearOrderedField F] (pi deg : F) : F :=
  (pi / 180) * deg

/-- The library function `isnan`: every value of the field `F` is a number. -/
def isnan {F : Type} (_x : F) : Bool := false

/-- Modelled from the spec: the outcome of a failed `Assert`, the macro of
`pbrt.h` (not among the sources): a fatal contract violation that is
"reported immediately". -/
inductive Severe where
  | assertionFailed
deriving DecidableEq

/-- Modelled from the spec: the macro `Assert(expr)` of `pbrt.h`, which is not
among the sources.  When `expr` holds the code after the macro runs (it is
the argument `rest`, which may use the fact checked); when it does not, the
run ends with the fatal error. -/
def Assert {α : Type} (expr : Prop) [Decidable expr] (rest : expr → Except Severe α) :
    Except Severe α :=
  if h : expr then rest h else Except.error Severe.assertionFailed

/-! ## The product of two values of the type `float`

A finite value of the type `float` (IEEE 754 binary32) is a rational number
of the form `m * 2 ^ k` with `|m| < 2 ^ 24` and `-149 <= k`; the two zeros are
the rational 0.  The product of two such values is the exact product rounded
to the nearest value of the type, a tie going to the even significand. -/

/-- The integer nearest to `q`, a tie going to the even one. -/
def roundHalfEven (q : ℚ) : ℤ :=
  let f := ⌊q⌋
  if q - f < 1 / 2 then f
  else if q - f > 1 / 2 then f + 1
  else if f % 2 = 0 then f else f + 1

/-- The value of the type `float` nearest to the rational `x` (round to nearest,
ties to even).  The spacing of the values around `x` is `2 ^ (e - 23)`, where
`e` is the exponent of `x`, at least `-126` (below `2 ^ (-126)` the values are
the subnormal ones, spaced by `2 ^ (-149)`).  A result of magnitude `2 ^ 128`
or more stands for the infinity of its sign. -/
def Float32.round (x : ℚ) : ℚ :=
  let e : ℤ := max (Int.log 2 |x|) (-126)
  let ulp : ℚ := 2 ^ (e - 23)
  roundHalfEven (x / ulp) * ulp

/-- The product of two values of the type `float`, as the machine computes it. -/
def Float32.mul (a b : ℚ) : ℚ := Float32.round (a * b)

/-- The rational `x` is a finite value of the type `float`. -/
def Float32.isFloat (x : ℚ) : Prop := Float32.round x = x ∧ |x| < 2 ^ 128

/-! ## BSDF inline functions -/

section Inline

variable {F : Type} [LinearOrderedField F]

/-- Source: `inline float CosTheta(const Vector &w)` -/
def CosTheta (w : Vector F) : F := w.z

/-- Source: `inline float AbsCosTheta(const Vector &w)` -/
def AbsCosTheta (w : Vector F) : F := |w.z|

/-- Source: `inline float SinTheta2(const Vector &w)` -/
def SinTheta2 (w : Vector F) : F :=
  max 0 (1 - CosTheta w * CosTheta w)

/-- Source: `inline float SinTheta(const Vector &w)`.  The library function
`sqrtf` is a parameter. -/
def SinTheta (sqrtf : F → F) (w : Vector F) : F :=
  sqrtf (SinTheta2 w)

/-- Source: `inline float CosPhi(const Vector &w)` -/
def CosPhi (sqrtf : F → F) (w : Vector F) : F :=
  let sintheta := SinTheta sqrtf w
  if sintheta = 0 then 1
  else Clamp (w.x / sintheta) (-1) 1

/-- Source: `inline float SinPhi(const Vector &w)` -/
def SinPhi (sqrtf : F → F) (w : Vector F) : F :=
  let sintheta := SinTheta sqrtf w
  if sintheta = 0 then 0
  else Clamp (w.y / sintheta) (-1) 1

/-- Source: `inline bool SameHemisphere(const Vector &w, const Vector &wp)`.  The
result depends on how the product of the two floats is rounded, so the
multiplication of the machine is the parameter `fmul`: the exact product
`fun a b => a * b` in exact arithmetic, `Float32.mul` for the type `float`. -/
def SameHemisphere (fmul : F → F → F) (w wp : Vector F) : Bool :=
  decide (fmul w.z wp.z > 0)

end Inline

/-! ## `enum BxDFType` -/

/-- The values of `enum BxDFType` are bit masks; they are natural numbers
here, with the bitwise operators of `Nat`. -/
abbrev BxDFType := Nat

def BSDF_REFLECTION : BxDFType := 1 <<< 0
def BSDF_TRANSMISSION : BxDFType := 1 <<< 1
def BSDF_DIFFUSE : BxDFType := 1 <<< 2
def BSDF_GLOSSY : BxDFType := 1 <<< 3
def BSDF_SPECULAR : BxDFType := 1 <<< 4
def BSDF_ALL_TYPES : BxDFType := BSDF_DIFFUSE ||| BSDF_GLOSSY ||| BSDF_SPECULAR
def BSDF_ALL_REFLECTION : BxDFType := BSDF_REFLECTION ||| BSDF_ALL_TYPES
def BSDF_ALL_TRANSMISSION : BxDFType := BSDF_TRANSMISSION ||| BSDF_ALL_TYPES
def BSDF_ALL : BxDFType := BSDF_ALL_REFLECTION ||| BSDF_ALL_TRANSMISSION

/-! ## `struct BSDFSample` -/

/-- Source: `struct BSDFSample`: the members `float uDir[2], uComponent`. -/
structure BSDFSample (F : Type) where
  uDir : Fin 2 → F
  uComponent : F

/-- Source: `BSDFSample::BSDFSample(float up0, float up1, float ucomp)` -/
def BSDFSample.BSDFSample {F : Type} [LinearOrderedField F] (up0 up1 ucomp : F) :
    Except Severe (BSDFSample F) :=
  Assert (up0 ≥ 0 ∧ up0 < 1) fun _ =>
  Assert (up1 ≥ 0 ∧ up1 < 1) fun _ =>
  Assert (ucomp ≥ 0 ∧ ucomp < 1) fun _ =>
  Except.ok { uDir := ![up0, up1], uComponent := ucomp }

/-! ## Fresnel models and microfacet distributions (data) -/

/-- Source: `class FresnelConductor`: the members `Spectrum eta, k`. -/
structure FresnelConductor (F : Type) (n : Nat) where
  eta : Spectrum F n
  k : Spectrum F n

/-- Source: `class FresnelDielectric`: the members `float eta_i, eta_t`. -/
structure FresnelDielectric (F : Type) where
  eta_i : F
  eta_t : F

/-- Source: `FresnelDielectric::FresnelDielectric(float ei, float et)` -/
def FresnelDielectric.FresnelDielectric {F : Type} (ei et : F) : FresnelDielectric F :=
  { eta_i := ei, eta_t := et }

/-- What a `Fresnel *` may point to: one of the three classes derived from
`Fresnel`. -/
inductive Fresnel (F : Type) (n : Nat) where
  | FresnelConductor (o : FresnelConductor F n)
  | FresnelDielectric (o : FresnelDielectric F)
  | FresnelNoOp

/-- What a `MicrofacetDistribution *` may point to: `Blinn` with its member
`exponent`, or `Anisotropic` with its members `ex`, `ey`. -/
inductive MicrofacetDistribution (F : Type) where
  | Blinn (exponent : F)
  | Anisotropic (ex ey : F)

/-- Source: `struct IrregIsotropicBRDFSample`: the members `Point p; Spectrum v`. -/
structure IrregIsotropicBRDFSample (F : Type) (n : Nat) where
  p : Point F
  v : Spectrum F n

/-- Modelled from the spec: the class template `KdTree` of `kdtree.h`, which is
not among the sources; "a nearest-neighbor spatial index built once and
treated read-only thereafter", here the collection of the samples it holds. -/
abbrev KdTree (α : Type) := List α

/-! ## Scattering terms -/

/-- What a `BxDF *` may point to: one alternative for each class derived from
`BxDF` in the header.  The first member of each alternative is the inherited
`const BxDFType type`; the others are the private members of the class. -/
inductive BxDF (F : Type) (n : Nat) where
  | BRDFToBTDF (type : BxDFType) (brdf : BxDF F n)
  | ScaledBxDF (type : BxDFType) (bxdf : BxDF F n) (s : Spectrum F n)
  | SpecularReflection (type : BxDFType) (R : Spectrum F n) (fresnel : Fresnel F n)
  | SpecularTransmission (type : BxDFType) (T : Spectrum F n) (etai etat : F)
      (fresnel : FresnelDielectric F)
  | Lambertian (type : BxDFType) (R : Spectrum F n)
  | OrenNayar (type : BxDFType) (R : Spectrum F n) (A B : F)
  | Microfacet (type : BxDFType) (R : Spectrum F n)
      (distribution : MicrofacetDistribution F) (fresnel : Fresnel F n)
  | FresnelBlend (type : BxDFType) (Rd Rs : Spectrum F n)
      (distribution : MicrofacetDistribution F)
  | IrregIsotropicBRDF (type : BxDFType)
      (isoBRDFData : KdTree (IrregIsotropicBRDFSample F n))
  | RegularHalfangleBRDF (type : BxDFType) (brdf : List F) (nThetaH nThetaD nPhiD : Nat)

section Terms

variable {F : Type} {n : Nat}

/-- The member `const BxDFType type` of the base class. -/
def BxDF.type : BxDF F n → BxDFType
  | .BRDFToBTDF t _ => t
  | .ScaledBxDF t _ _ => t
  | .SpecularReflection t _ _ => t
  | .SpecularTransmission t _ _ _ _ => t
  | .Lambertian t _ => t
  | .OrenNayar t _ _ _ => t
  | .Microfacet t _ _ _ => t
  | .FresnelBlend t _ _ _ => t
  | .IrregIsotropicBRDF t _ => t
  | .RegularHalfangleBRDF t _ _ _ _ => t

/-- Source: `bool BxDF::MatchesFlags(BxDFType flags) const` -/
def BxDF.MatchesFlags (self : BxDF F n) (flags : BxDFType) : Bool :=
  (self.type &&& flags) == self.type

end Terms

/-! ### Constructors defined in the header -/

section Constructors

variable {F : Type} {n : Nat}

/-- Source: `BRDFToBTDF::BRDFToBTDF(BxDF *b)` -/
def BRDFToBTDF.BRDFToBTDF (b : BxDF F n) : BxDF F n :=
  BxDF.BRDFToBTDF (b.type ^^^ (BSDF_REFLECTION ||| BSDF_TRANSMISSION)) b

/-- Source: `ScaledBxDF::ScaledBxDF(BxDF *b, const Spectrum &sc)` -/
def ScaledBxDF.ScaledBxDF (b : BxDF F n) (sc : Spectrum F n) : BxDF F n :=
  BxDF.ScaledBxDF b.type b sc

/-- Source: `SpecularReflection::SpecularReflection(const Spectrum &r, Fresnel *f)` -/
def SpecularReflection.SpecularReflection (r : Spectrum F n) (f : Fresnel F n) : BxDF F n :=
  BxDF.SpecularReflection (BSDF_REFLECTION ||| BSDF_SPECULAR) r f

/-- Source: `SpecularTransmission::SpecularTransmission(const Spectrum &t, float ei, float et)` -/
def SpecularTransmission.SpecularTransmission (t : Spectrum F n) (ei et : F) : BxDF F n :=
  BxDF.SpecularTransmission (BSDF_TRANSMISSION ||| BSDF_SPECULAR) t ei et
    (FresnelDielectric.FresnelDielectric ei et)

/-- Source: `Lambertian::Lambertian(const Spectrum &reflectance)` -/
def Lambertian.Lambertian (reflectance : Spectrum F n) : BxDF F n :=
  BxDF.Lambertian (BSDF_REFLECTION ||| BSDF_DIFFUSE) reflectance

/-- Source: `OrenNayar::OrenNayar(const Spectrum &reflectance, float sig)`.  The
function `Radians` of `pbrt.h` is not among the sources and is a parameter. -/
def OrenNayar.OrenNayar [LinearOrderedField F] (Radians : F → F)
    (reflectance : Spectrum F n) (sig : F) : BxDF F n :=
  let sigma := Radians sig
  let sigma2 := sigma * sigma
  BxDF.OrenNayar (BSDF_REFLECTION ||| BSDF_DIFFUSE) reflectance
    (1 - (sigma2 / (2 * (sigma2 + 33 / 100))))
    (45 / 100 * sigma2 / (sigma2 + 9 / 100))

/-- Source: `IrregIsotropicBRDF::IrregIsotropicBRDF(const KdTree<IrregIsotropicBRDFSample> *d)` -/
def IrregIsotropicBRDF.IrregIsotropicBRDF (d : KdTree (IrregIsotropicBRDFSample F n)) :
    BxDF F n :=
  BxDF.IrregIsotropicBRDF (BSDF_REFLECTION ||| BSDF_GLOSSY) d

/-- Source: `RegularHalfangleBRDF::RegularHalfangleBRDF(const float *d, uint32_t nth,
uint32_t ntd, uint32_t npd)` -/
def RegularHalfangleBRDF.RegularHalfangleBRDF (d : List F) (nth ntd npd : Nat) : BxDF F n :=
  BxDF.RegularHalfangleBRDF (BSDF_REFLECTION ||| BSDF_GLOSSY) d nth ntd npd

end Constructors

/-! ### Virtual methods

A method whose body is in `reflection.cpp` is the parameter `outOfLine`, which
receives the object the method is called on. -/

section Methods

variable {F : Type} {n : Nat}

/-- Source: `static Vector BRDFToBTDF::otherHemisphere(const Vector &w)` -/
def BRDFToBTDF.otherHemisphere [Neg F] (w : Vector F) : Vector F :=
  ⟨w.x, w.y, -w.z⟩

/-- Source: `virtual Spectrum BxDF::f(const Vector &wo, const Vector &wi) const`: the
header defines it for the two specular classes. -/
def BxDF.f [Zero F] (outOfLine : BxDF F n → Vector F → Vector F → Spectrum F n) :
    BxDF F n → Vector F → Vector F → Spectrum F n
  | .SpecularReflection _ _ _, _, _ => Spectrum.ofFloat 0
  | .SpecularTransmission _ _ _ _ _, _, _ => Spectrum.ofFloat 0
  | self, wo, wi => outOfLine self wo wi

/-- Source: `virtual float BxDF::Pdf(const Vector &wo, const Vector &wi) const`: the
header defines it for the two specular classes. -/
def BxDF.Pdf [Zero F] (outOfLine : BxDF F n → Vector F → Vector F → F) :
    BxDF F n → Vector F → Vector F → F
  | .SpecularReflection _ _ _, _, _ => 0
  | .SpecularTransmission _ _ _ _ _, _, _ => 0
  | self, wo, wi => outOfLine self wo wi

/-- Source: `virtual Spectrum BxDF::rho(const Vector &wo, int nSamples, const float
*samples) const`: the header defines it for `BRDFToBTDF`, `ScaledBxDF` and
`Lambertian`. -/
def BxDF.rho [Neg F] [Mul F] (outOfLine : BxDF F n → Vector F → Int → List F → Spectrum F n) :
    BxDF F n → Vector F → Int → List F → Spectrum F n
  | .BRDFToBTDF _ brdf, w, nSamples, samples =>
      brdf.rho outOfLine (BRDFToBTDF.otherHemisphere w) nSamples samples
  | .ScaledBxDF _ bxdf s, w, nSamples, samples =>
      s * bxdf.rho outOfLine w nSamples samples
  | .Lambertian _ R, _, _, _ => R
  | self, w, nSamples, samples => outOfLine self w nSamples samples

/-- Source: `virtual Spectrum BxDF::rho(int nSamples, const float *samples1, const
float *samples2) const`: the header defines it for `BRDFToBTDF`, `ScaledBxDF`
and `Lambertian`. -/
def BxDF.rhoHH [Mul F] (outOfLine : BxDF F n → Int → List F → List F → Spectrum F n) :
    BxDF F n → Int → List F → List F → Spectrum F n
  | .BRDFToBTDF _ brdf, nSamples, samples1, samples2 =>
      brdf.rhoHH outOfLine nSamples samples1 samples2
  | .ScaledBxDF _ bxdf s, nSamples, samples1, samples2 =>
      s * bxdf.rhoHH outOfLine nSamples samples1 samples2
  | .Lambertian _ R, _, _, _ => R
  | self, nSamples, samples1, samples2 => outOfLine self nSamples samples1 samples2

/-- Source: `virtual Spectrum Fresnel::Evaluate(float cosi) const`: the header
defines it for `FresnelNoOp`. -/
def Fresnel.Evaluate [One F] (outOfLine : Fresnel F n → F → Spectrum F n) :
    Fresnel F n → F → Spectrum F n
  | .FresnelNoOp, _ => Spectrum.ofFloat 1
  | self, cosi => outOfLine self cosi

/-- Source: `float Microfacet::G(const Vector &wo, const Vector &wi, const Vector
&wh) const`; the method reads no member of the object. -/
def Microfacet.G [LinearOrderedField F] (wo wi wh : Vector F) : F :=
  let NdotWh := AbsCosTheta wh
  let NdotWo := AbsCosTheta wo
  let NdotWi := AbsCosTheta wi
  let WOdotWh := AbsDot wo wh
  min 1 (min (2 * NdotWh * NdotWo / WOdotWh) (2 * NdotWh * NdotWi / WOdotWh))

/-- Source: `Blinn::Blinn(float e)` -/
def Blinn.Blinn [LinearOrderedField F] (e : F) : MicrofacetDistribution F :=
  let e := if e > 10000 ∨ isnan e = true then 10000 else e
  MicrofacetDistribution.Blinn e

/-- Source: `Anisotropic::Anisotropic(float x, float y)` -/
def Anisotropic.Anisotropic [LinearOrderedField F] (x y : F) : MicrofacetDistribution F :=
  let ex := x
  let ey := y
  let ex := if ex > 10000 ∨ isnan ex = true then 10000 else ex
  let ey := if ey > 10000 ∨ isnan ey = true then 10000 else ey
  MicrofacetDistribution.Anisotropic ex ey

/-- Source: `virtual float MicrofacetDistribution::D(const Vector &wh) const`, which
the header defines for `Blinn` and for `Anisotropic`.  The constant
`INV_TWOPI` of `pbrt.h` and the library functions `sqrtf` and `powf` are
parameters. -/
def MicrofacetDistribution.D [LinearOrderedField F] (INV_TWOPI : F) (sqrtf : F → F)
    (powf : F → F → F) : MicrofacetDistribution F → Vector F → F
  | .Blinn exponent, wh =>
      let costhetah := AbsCosTheta wh
      (exponent + 2) * INV_TWOPI * powf costhetah exponent
  | .Anisotropic ex ey, wh =>
      let costhetah := AbsCosTheta wh
      let d := 1 - costhetah * costhetah
      if d = 0 then 0
      else
        let e := (ex * wh.x * wh.x + ey * wh.y * wh.y) / d
        sqrtf ((ex + 2) * (ey + 2)) * INV_TWOPI * powf costhetah e

/-- Source: `Spectrum FresnelBlend::SchlickFresnel(float costheta) const`; the
method reads the member `Rs` only, which is an argument here.  The library
function `powf` is a parameter. -/
def FresnelBlend.SchlickFresnel [LinearOrderedField F] (powf : F → F → F)
    (Rs : Spectrum F n) (costheta : F) : Spectrum F n :=
  Rs + powf (1 - costheta) 5 * (Spectrum.ofFloat 1 - Rs)

end Methods

/-! ## The aggregate `class BSDF` -/

/-- Source: `#define MAX_BxDFS 8` -/
def MAX_BxDFS : Nat := 8

/-- Source: `class BSDF`, its data members in the order of the header.  The class
`DifferentialGeometry` of `shape.h` is not among the sources and is the
parameter `DG`.  The member `int nBxDFs` is a count that only `Add`
changes, by incrementing it: it is a natural number.  The member `BxDF
*bxdfs[MAX_BxDFS]` is an array of `MAX_BxDFS` slots, a slot that was never
assigned being `none`. -/
structure BSDF (F : Type) (n : Nat) (DG : Type) where
  dgShading : DG
  eta : F
  nn : Normal F
  ng : Normal F
  sn : Vector F
  tn : Vector F
  nBxDFs : Nat
  bxdfs : Fin MAX_BxDFS → Option (BxDF F n)

section Aggregate

variable {F : Type} {n : Nat} {DG : Type}

/-- Modelled from the spec: the constructor `BSDF::BSDF`, whose body is in
`reflection.cpp`, not among the sources: "Construction takes the local
shading frame, the geometric normal, and a relative index of refraction;
starts with zero terms." -/
def BSDF.BSDF (dgs : DG) (nn : Normal F) (sn tn : Vector F) (ngeom : Normal F) (eta : F) :
    BSDF F n DG :=
  { dgShading := dgs, eta := eta, nn := nn, ng := ngeom, sn := sn, tn := tn,
    nBxDFs := 0, bxdfs := fun _ => none }

/- Inside the namespace `BSDF` the name `BSDF` is the constructor above, so the
class is written `PBRT.BSDF` from here on. -/

/-- The array element `bxdfs[i]`: `none` when the slot was never assigned or
`i` is outside the array. -/
def BSDF.slot (self : PBRT.BSDF F n DG) (i : Nat) : Option (BxDF F n) :=
  if h : i < MAX_BxDFS then self.bxdfs ⟨i, h⟩ else none

/-- Source: `Vector BSDF::WorldToLocal(const Vector &v) const` -/
def BSDF.WorldToLocal [Add F] [Mul F] (self : PBRT.BSDF F n DG) (v : Vector F) : Vector F :=
  ⟨Dot v self.sn, Dot v self.tn, DotVN v self.nn⟩

/-- Source: `Vector BSDF::LocalToWorld(const Vector &v) const` -/
def BSDF.LocalToWorld [Add F] [Mul F] (self : PBRT.BSDF F n DG) (v : Vector F) : Vector F :=
  ⟨self.sn.x * v.x + self.tn.x * v.y + self.nn.x * v.z,
   self.sn.y * v.x + self.tn.y * v.y + self.nn.y * v.z,
   self.sn.z * v.x + self.tn.z * v.y + self.nn.z * v.z⟩

/-- Source: `inline void BSDF::Add(BxDF *b)` -/
def BSDF.Add (self : PBRT.BSDF F n DG) (b : BxDF F n) : Except Severe (PBRT.BSDF F n DG) :=
  Assert (self.nBxDFs < MAX_BxDFS) fun h =>
  Except.ok { self with
    bxdfs := Function.update self.bxdfs ⟨self.nBxDFs, h⟩ (some b)
    nBxDFs := self.nBxDFs + 1 }

/-- Source: `int BSDF::NumComponents() const` -/
def BSDF.NumComponents (self : PBRT.BSDF F n DG) : Nat := self.nBxDFs

/-- Source: `inline int BSDF::NumComponents(BxDFType flags) const`.  The loop
runs `i` over `0 .. nBxDFs - 1` with the counter `num`; reading a slot that
holds no term has no defined result (`none`). -/
def BSDF.NumComponentsFlags (self : PBRT.BSDF F n DG) (flags : BxDFType) : Option Nat :=
  (List.range self.nBxDFs).foldlM
    (fun num i => (self.slot i).map fun b => if b.MatchesFlags flags then num + 1 else num)
    0

/-! ### Notions used to state the properties of the aggregate -/

/-- The terms the aggregate holds: the contents of the slots `0 .. nBxDFs - 1`,
in order. -/
def BSDF.terms (self : PBRT.BSDF F n DG) : List (BxDF F n) :=
  (List.range self.nBxDFs).filterMap self.slot

/-- The representation invariant of an aggregate: the count is within the
capacity and each of the first `nBxDFs` slots holds a term. -/
def BSDF.WellFormed (self : PBRT.BSDF F n DG) : Prop :=
  self.nBxDFs ≤ MAX_BxDFS ∧ ∀ i, i < self.nBxDFs → (self.slot i).isSome = true

instance (self : PBRT.BSDF F n DG) : Decidable self.WellFormed := by
  unfold BSDF.WellFormed; infer_instance

/-- The frame of the aggregate is orthonormal: `sn`, `tn` and `nn` have unit
length (the dot product of each with itself is 1) and the dot product of any
two of them is 0. -/
def BSDF.frameOrthonormal [LinearOrderedField F] (self : PBRT.BSDF F n DG) : Prop :=
  Dot self.sn self.sn = 1 ∧ Dot self.tn self.tn = 1 ∧
  self.nn.x * self.nn.x + self.nn.y * self.nn.y + self.nn.z * self.nn.z = 1 ∧
  Dot self.sn self.tn = 0 ∧ DotVN self.sn self.nn = 0 ∧ DotVN self.tn self.nn = 0

/-- A sequence of calls of `Add`, one for each term of `bs` in order; it stops at
the first call that fails. -/
def BSDF.AddAll (self : PBRT.BSDF F n DG) (bs : List (BxDF F n)) : Except Severe (PBRT.BSDF F n DG) :=
  bs.foldlM BSDF.Add self

end Aggregate

/-! ## Notions used to state the properties of the type flags -/

/-- The two flags of the transport axis. -/
def transportFlags : List BxDFType := [BSDF_REFLECTION, BSDF_TRANSMISSION]

/-- The three flags of the sharpness axis. -/
def sharpnessFlags : List BxDFType := [BSDF_DIFFUSE, BSDF_GLOSSY, BSDF_SPECULAR]

/-- The five base flags of `enum BxDFType`. -/
def baseFlags : List BxDFType :=
  [BSDF_REFLECTION, BSDF_TRANSMISSION, BSDF_DIFFUSE, BSDF_GLOSSY, BSDF_SPECULAR]

/-- The type `t` is built from the five base flags: it is the union (`|`) of
some of them. -/
def BxDFType.builtFromFlags (t : BxDFType) : Prop :=
  ∃ l : List BxDFType, (∀ flag, flag ∈ l → flag ∈ baseFlags) ∧
    t = l.foldl (fun acc flag => acc ||| flag) 0

/-- The flag `flag` is set in `t`: `(t & flag) != 0`. -/
def BxDFType.has (t flag : BxDFType) : Bool := (t &&& flag) != 0

/-- Exactly one of the flags of `axis` is set in `t`. -/
def BxDFType.exactlyOne (t : BxDFType) (axis : List BxDFType) : Prop :=
  (axis.filter fun flag => BxDFType.has t flag).length = 1

instance (t : BxDFType) (axis : List BxDFType) : Decidable (BxDFType.exactlyOne t axis) := by
  unfold BxDFType.exactlyOne; infer_instance

/-- The invariant of the header's comment on `BxDF::type`: exactly one of
`BSDF_REFLECTION`, `BSDF_TRANSMISSION` and exactly one of `BSDF_DIFFUSE`,
`BSDF_GLOSSY`, `BSDF_SPECULAR` is set. -/
def BxDFType.oneFlagPerAxis (t : BxDFType) : Prop :=
  BxDFType.exactlyOne t transportFlags ∧ BxDFType.exactlyOne t sharpnessFlags

instance (t : BxDFType) : Decidable (BxDFType.oneFlagPerAxis t) := by
  unfold BxDFType.oneFlagPerAxis; infer_instance

/-! ## Concrete inputs -/

/-- A term over the rationals with three samples: a Lambertian term of
reflectance one half. -/
def exampleTerm : BxDF ℚ 3 := Lambertian.Lambertian (Spectrum.ofFloat (1 / 2))

/-- An aggregate without terms, over the rationals, with the frame of the
coordinate axes. -/
def exampleEmpty : BSDF ℚ 3 Unit :=
  BSDF.BSDF () ⟨0, 0, 1⟩ ⟨1, 0, 0⟩ ⟨0, 1, 0⟩ ⟨0, 0, 1⟩ 1

/-- A transmissive term over the rationals: specular transmission from index 1
to index 3/2. -/
def exampleGlass : BxDF ℚ 3 :=
  SpecularTransmission.SpecularTransmission (Spectrum.ofFloat 1) 1 (3 / 2)

/-- An aggregate holding two terms, `exampleTerm` in slot 0 and `exampleGlass`
in slot 1. -/
def exampleTwo : BSDF ℚ 3 Unit :=
  { exampleEmpty with
    nBxDFs := 2
    bxdfs := fun i => if i.val = 0 then some exampleTerm
      else if i.val = 1 then some exampleGlass else none }

/-- An aggregate without terms whose frame is the coordinate frame turned about
the z axis: `sn = (3/5, 4/5, 0)`, `tn = (-4/5, 3/5, 0)`, `nn = (0, 0, 1)`. -/
def exampleTurned : BSDF ℚ 3 Unit :=
  BSDF.BSDF () ⟨0, 0, 1⟩ ⟨3 / 5, 4 / 5, 0⟩ ⟨-4 / 5, 3 / 5, 0⟩ ⟨0, 0, 1⟩ 1

/-! # Theorems -/

section SpecularTheorems

variable {F : Type} [LinearOrderedField F] {n : Nat}

/-- C1: for every pair of directions, `SpecularReflection::f` and
`SpecularTransmission::f` return the spectrum whose samples are all zero and
`SpecularReflection::Pdf` and `SpecularTransmission::Pdf` return zero,
whatever the members of the term (type, reflectance or transmittance, Fresnel
model, refractive indices) and whatever the out-of-line methods do. -/
theorem specular_f_Pdf_zero
    (outOfLineF : BxDF F n → Vector F → Vector F → Spectrum F n)
    (outOfLinePdf : BxDF F n → Vector F → Vector F → F)
    (t : BxDFType) (R T : Spectrum F n) (fr : Fresnel F n) (etai etat : F)
    (fd : FresnelDielectric F) (wo wi : Vector F) :
    (BxDF.SpecularReflection t R fr).f outOfLineF wo wi = Spectrum.ofFloat 0 ∧
    (BxDF.SpecularTransmission t T etai etat fd).f outOfLineF wo wi = Spectrum.ofFloat 0 ∧
    (∀ i, ((BxDF.SpecularReflection t R fr).f outOfLineF wo wi).c i = 0) ∧
    (∀ i, ((BxDF.SpecularTransmission t T etai etat fd).f outOfLineF wo wi).c i = 0) ∧
    (BxDF.SpecularReflection t R fr).Pdf outOfLinePdf wo wi = 0 ∧
    (BxDF.SpecularTransmission t T etai etat fd).Pdf outOfLinePdf wo wi = 0 ∧
    (∀ (r : Spectrum F n) (f : Fresnel F n),
      (SpecularReflection.SpecularReflection r f).f outOfLineF wo wi = Spectrum.ofFloat 0 ∧
      (SpecularReflection.SpecularReflection r f).Pdf outOfLinePdf wo wi = 0) ∧
    (∀ (tr : Spectrum F n) (ei et : F),
      (SpecularTransmission.SpecularTransmission tr ei et).f outOfLineF wo wi =
        Spectrum.ofFloat 0 ∧
      (SpecularTransmission.SpecularTransmission tr ei et).Pdf outOfLinePdf wo wi = 0) := by
  refine ⟨rfl, rfl, fun _ => rfl, fun _ => rfl, rfl, rfl, fun _ _ => ⟨rfl, rfl⟩,
    fun _ _ _ => ⟨rfl, rfl⟩⟩

end SpecularTheorems

section AggregateTheorems

variable {F : Type} {n : Nat} {DG : Type}

theorem Assert_of_holds {α : Type} {expr : Prop} [Decidable expr]
    (rest : expr → Except Severe α) (h : expr) : Assert expr rest = rest h := by
  simp [Assert, h]

theorem Assert_of_fails {α : Type} {expr : Prop} [Decidable expr]
    (rest : expr → Except Severe α) (h : ¬ expr) :
    Assert expr rest = Except.error Severe.assertionFailed := by
  simp [Assert, h]

theorem Add_of_room (a : PBRT.BSDF F n DG) (b : BxDF F n) (h : a.nBxDFs < MAX_BxDFS) :
    a.Add b = Except.ok { a with
      bxdfs := Function.update a.bxdfs ⟨a.nBxDFs, h⟩ (some b)
      nBxDFs := a.nBxDFs + 1 } := by
  unfold BSDF.Add
  rw [Assert_of_holds _ h]

theorem Add_of_full (a : PBRT.BSDF F n DG) (b : BxDF F n) (h : ¬ a.nBxDFs < MAX_BxDFS) :
    a.Add b = Except.error Severe.assertionFailed := by
  unfold BSDF.Add
  rw [Assert_of_fails _ h]

theorem Add_ok_iff (a : PBRT.BSDF F n DG) (b : BxDF F n) :
    (∃ r, a.Add b = Except.ok r) ↔ a.nBxDFs < MAX_BxDFS := by
  constructor
  · rintro ⟨r, hr⟩
    by_contra hc
    rw [Add_of_full a b hc] at hr
    cases hr
  · intro h
    exact ⟨_, Add_of_room a b h⟩

theorem slot_after_Add (a r : PBRT.BSDF F n DG) (b : BxDF F n) (h : a.Add b = Except.ok r)
    (i : Nat) : r.slot i = if i = a.nBxDFs then some b else a.slot i := by
  have hlt : a.nBxDFs < MAX_BxDFS := (Add_ok_iff a b).1 ⟨r, h⟩
  rw [Add_of_room a b hlt] at h
  cases h
  unfold BSDF.slot
  by_cases hi : i < MAX_BxDFS
  · by_cases he : i = a.nBxDFs
    · subst he
      simp [hi]
    · have hne : (⟨i, hi⟩ : Fin MAX_BxDFS) ≠ ⟨a.nBxDFs, hlt⟩ := by
        intro hc
        exact he (Fin.mk.inj hc)
      simp [hi, he, Function.update_noteq hne]
  · have he : i ≠ a.nBxDFs := by
      intro hc
      exact hi (hc ▸ hlt)
    simp [hi, he]

theorem count_after_Add (a r : PBRT.BSDF F n DG) (b : BxDF F n) (h : a.Add b = Except.ok r) :
    r.nBxDFs = a.nBxDFs + 1 := by
  have hlt : a.nBxDFs < MAX_BxDFS := (Add_ok_iff a b).1 ⟨r, h⟩
  rw [Add_of_room a b hlt] at h
  cases h
  rfl

theorem terms_after_Add (a r : PBRT.BSDF F n DG) (b : BxDF F n) (h : a.Add b = Except.ok r) :
    r.terms = a.terms ++ [b] := by
  unfold BSDF.terms
  rw [count_after_Add a r b h, List.range_succ, List.filterMap_append]
  congr 1
  · apply List.filterMap_congr
    intro i hi
    rw [slot_after_Add a r b h, if_neg (Nat.ne_of_lt (List.mem_range.1 hi))]
  · simp [slot_after_Add a r b h]

theorem wellFormed_after_Add (a r : PBRT.BSDF F n DG) (b : BxDF F n)
    (h : a.Add b = Except.ok r) (hw : a.WellFormed) : r.WellFormed := by
  have hlt : a.nBxDFs < MAX_BxDFS := (Add_ok_iff a b).1 ⟨r, h⟩
  refine ⟨by rw [count_after_Add a r b h]; exact hlt, ?_⟩
  intro i hi
  rw [slot_after_Add a r b h]
  by_cases he : i = a.nBxDFs
  · simp [he]
  · rw [if_neg he]
    rw [count_after_Add a r b h] at hi
    exact hw.2 i (by omega)

theorem wellFormed_BSDF (dgs : DG) (nn : Normal F) (sn tn : Vector F) (ngeom : Normal F)
    (eta : F) : (BSDF.BSDF dgs nn sn tn ngeom eta : PBRT.BSDF F n DG).WellFormed :=
  ⟨Nat.zero_le _, fun _ hi => absurd hi (Nat.not_lt_zero _)⟩

theorem AddAll_nil (a : PBRT.BSDF F n DG) : a.AddAll [] = Except.ok a := rfl

theorem AddAll_cons_of_room (a : PBRT.BSDF F n DG) (b : BxDF F n) (bs : List (BxDF F n))
    (r : PBRT.BSDF F n DG) (h : a.Add b = Except.ok r) :
    a.AddAll (b :: bs) = r.AddAll bs := by
  simp [BSDF.AddAll, List.foldlM_cons, h, bind, Except.bind]

theorem AddAll_cons_of_full (a : PBRT.BSDF F n DG) (b : BxDF F n) (bs : List (BxDF F n))
    (h : ¬ a.nBxDFs < MAX_BxDFS) :
    a.AddAll (b :: bs) = Except.error Severe.assertionFailed := by
  simp [BSDF.AddAll, List.foldlM_cons, Add_of_full a b h, bind, Except.bind]

theorem AddAll_ok_iff (bs : List (BxDF F n)) (a : PBRT.BSDF F n DG)
    (ha : a.nBxDFs ≤ MAX_BxDFS) :
    (∃ r, a.AddAll bs = Except.ok r) ↔ a.nBxDFs + bs.length ≤ MAX_BxDFS := by
  induction bs generalizing a with
  | nil => simpa [AddAll_nil] using ha
  | cons b bs ih =>
    by_cases hlt : a.nBxDFs < MAX_BxDFS
    · rw [AddAll_cons_of_room a b bs _ (Add_of_room a b hlt), ih _ (Nat.succ_le_of_lt hlt)]
      simp only [List.length_cons]
      omega
    · rw [AddAll_cons_of_full a b bs hlt]
      simp only [List.length_cons]
      constructor
      · rintro ⟨r, hr⟩
        cases hr
      · intro h
        omega

theorem AddAll_count (bs : List (BxDF F n)) (a r : PBRT.BSDF F n DG)
    (h : a.AddAll bs = Except.ok r) :
    r.nBxDFs = a.nBxDFs + bs.length ∧ (a.nBxDFs ≤ MAX_BxDFS → r.nBxDFs ≤ MAX_BxDFS) ∧
      r.terms = a.terms ++ bs := by
  induction bs generalizing a with
  | nil =>
    rw [AddAll_nil] at h
    cases h
    simp
  | cons b bs ih =>
    by_cases hlt : a.nBxDFs < MAX_BxDFS
    · rw [AddAll_cons_of_room a b bs _ (Add_of_room a b hlt)] at h
      obtain ⟨h1, h2, h3⟩ := ih _ h
      refine ⟨?_, fun _ => h2 hlt, ?_⟩
      · rw [h1]
        simp only [List.length_cons]
        omega
      · rw [h3, terms_after_Add a _ b (Add_of_room a b hlt)]
        simp
    · rw [AddAll_cons_of_full a b bs hlt] at h
      cases h

end AggregateTheorems

section AggregateClaims

variable {F : Type} {n : Nat} {DG : Type}

theorem eq_error_of_not_ok {α : Type} (x : Except Severe α) (h : ¬ ∃ r, x = Except.ok r) :
    x = Except.error Severe.assertionFailed := by
  cases x with
  | error e => cases e; rfl
  | ok r => exact absurd ⟨r, rfl⟩ h

/-- C2: `BSDF::Add` on an aggregate holding `NumComponents()` terms succeeds
if and only if that number is below `MAX_BxDFS = 8`, and otherwise ends in the
assertion failure; a successful `Add` leaves at most 8 terms.  Starting from
an aggregate without terms, a sequence of calls of `Add` succeeds if and only
if it has at most 8 calls, the count after it is the number of calls, and
after eight calls a ninth is rejected. -/
theorem BSDF_Add_capacity (a : PBRT.BSDF F n DG) (b : BxDF F n) (bs : List (BxDF F n)) :
    MAX_BxDFS = 8 ∧
    ((∃ r, a.Add b = Except.ok r) ↔ a.NumComponents < 8) ∧
    (¬ a.NumComponents < 8 → a.Add b = Except.error Severe.assertionFailed) ∧
    (∀ r, a.Add b = Except.ok r → r.NumComponents ≤ 8) ∧
    (a.NumComponents = 0 → ((∃ r, a.AddAll bs = Except.ok r) ↔ bs.length ≤ 8)) ∧
    (a.NumComponents = 0 → ∀ r, a.AddAll bs = Except.ok r →
      r.NumComponents = bs.length ∧ r.NumComponents ≤ 8) ∧
    (a.NumComponents = 0 → bs.length = 8 →
      ∃ r, a.AddAll bs = Except.ok r ∧ r.NumComponents = 8 ∧
        r.Add b = Except.error Severe.assertionFailed ∧
        a.AddAll (bs ++ [b]) = Except.error Severe.assertionFailed) := by
  have hmax : MAX_BxDFS = 8 := rfl
  refine ⟨hmax, ?_, ?_, ?_, ?_, ?_, ?_⟩
  · exact Add_ok_iff a b
  · exact fun h => Add_of_full a b h
  · intro r hr
    have hlt : a.nBxDFs < MAX_BxDFS := (Add_ok_iff a b).1 ⟨r, hr⟩
    have hc := count_after_Add a r b hr
    show r.nBxDFs ≤ 8
    omega
  · intro h0
    have h0 : a.nBxDFs = 0 := h0
    rw [AddAll_ok_iff bs a (by omega), h0, hmax]
    omega
  · intro h0 r hr
    have h0 : a.nBxDFs = 0 := h0
    obtain ⟨h1, h2, _⟩ := AddAll_count bs a r hr
    have h3 := h2 (by omega)
    show r.nBxDFs = bs.length ∧ r.nBxDFs ≤ 8
    omega
  · intro h0 hlen
    have h0 : a.nBxDFs = 0 := h0
    obtain ⟨r, hr⟩ := (AddAll_ok_iff bs a (by omega)).2 (by omega)
    obtain ⟨h1, _, _⟩ := AddAll_count bs a r hr
    have h8 : r.nBxDFs = 8 := by omega
    refine ⟨r, hr, h8, Add_of_full r b (by omega), ?_⟩
    apply eq_error_of_not_ok
    rw [AddAll_ok_iff (bs ++ [b]) a (by omega), List.length_append, List.length_singleton]
    omega

/-- C3: on an aggregate holding fewer than `MAX_BxDFS` terms, `BSDF::Add(b)`
succeeds and the aggregate it leaves has one term more, `b` in the slot whose
index is the old count, every other slot as before, and the members
`dgShading`, `eta`, `nn`, `ng`, `sn`, `tn` as before; the list of the terms
held is the old one followed by `b`. -/
theorem BSDF_Add_appends (a : PBRT.BSDF F n DG) (b : BxDF F n)
    (h : a.NumComponents < MAX_BxDFS) :
    ∃ r, a.Add b = Except.ok r ∧
      r.NumComponents = a.NumComponents + 1 ∧
      r.slot a.NumComponents = some b ∧
      (∀ i, i ≠ a.NumComponents → r.slot i = a.slot i) ∧
      r.terms = a.terms ++ [b] ∧
      r.dgShading = a.dgShading ∧ r.eta = a.eta ∧ r.nn = a.nn ∧ r.ng = a.ng ∧
      r.sn = a.sn ∧ r.tn = a.tn := by
  have hr := Add_of_room a b h
  refine ⟨_, hr, count_after_Add a _ b hr, ?_, ?_, terms_after_Add a _ b hr,
    rfl, rfl, rfl, rfl, rfl, rfl⟩
  · rw [slot_after_Add a _ b hr]
    exact if_pos rfl
  · intro i hi
    rw [slot_after_Add a _ b hr]
    exact if_neg hi

/-- The hypothesis of `BSDF_Add_appends` holds of the aggregate without terms,
and `Add` puts the term in slot 0 there. -/
theorem BSDF_Add_appends_witness :
    exampleEmpty.NumComponents < MAX_BxDFS ∧
    ∃ r, exampleEmpty.Add exampleTerm = Except.ok r ∧ r.NumComponents = 1 ∧
      r.slot 0 = some exampleTerm ∧ r.terms = [exampleTerm] := by
  refine ⟨by decide, ?_⟩
  obtain ⟨r, h1, h2, h3, _, h5, _⟩ := BSDF_Add_appends exampleEmpty exampleTerm (by decide)
  exact ⟨r, h1, h2, h3, h5⟩

theorem foldlM_slots_count (a : PBRT.BSDF F n DG) (flags : BxDFType) (l : List Nat)
    (hl : ∀ i ∈ l, (a.slot i).isSome = true) (acc : Nat) :
    l.foldlM
      (fun num i => (a.slot i).map fun b => if b.MatchesFlags flags then num + 1 else num)
      acc
    = some (acc + (l.filterMap a.slot).countP fun t => t.MatchesFlags flags) := by
  induction l generalizing acc with
  | nil => simp
  | cons i l ih =>
    obtain ⟨t, ht⟩ := Option.isSome_iff_exists.1 (hl i (List.mem_cons_self i l))
    have hl2 : ∀ j ∈ l, (a.slot j).isSome = true := fun j hj => hl j (List.mem_cons_of_mem i hj)
    rw [List.foldlM_cons, ht, List.filterMap_cons_some ht]
    simp only [Option.map_some', Option.some_bind, Option.bind_eq_bind, List.countP_cons]
    rw [ih hl2]
    by_cases hm : t.MatchesFlags flags = true
    · simp only [hm, if_true, Option.some.injEq]
      rw [Nat.add_right_comm, Nat.add_assoc]
    · simp [hm]

theorem filterMap_range_length {α : Type} (f : Nat → Option α) (m : Nat)
    (hf : ∀ i, i < m → (f i).isSome = true) : ((List.range m).filterMap f).length = m := by
  induction m with
  | zero => rfl
  | succ m ih =>
    obtain ⟨t, ht⟩ := Option.isSome_iff_exists.1 (hf m (Nat.lt_succ_self m))
    rw [List.range_succ, List.filterMap_append, List.length_append,
      ih fun i hi => hf i (Nat.lt_succ_of_lt hi)]
    simp [ht]

theorem filterMap_range_get? {α : Type} (f : Nat → Option α) (m : Nat)
    (hf : ∀ i, i < m → (f i).isSome = true) (i : Nat) (hi : i < m) :
    ((List.range m).filterMap f).get? i = f i := by
  induction m with
  | zero => exact absurd hi (Nat.not_lt_zero _)
  | succ m ih =>
    have hf2 : ∀ j, j < m → (f j).isSome = true := fun j hj => hf j (Nat.lt_succ_of_lt hj)
    have hlen := filterMap_range_length f m hf2
    obtain ⟨t, ht⟩ := Option.isSome_iff_exists.1 (hf m (Nat.lt_succ_self m))
    rw [List.range_succ, List.filterMap_append]
    by_cases him : i < m
    · rw [List.get?_eq_getElem?, List.getElem?_append_left (by omega), ← List.get?_eq_getElem?]
      exact ih hf2 him
    · have hie : i = m := by omega
      subst hie
      rw [List.get?_eq_getElem?, List.getElem?_append_right (by omega)]
      simp [hlen, ht]

theorem terms_length (a : PBRT.BSDF F n DG) (hw : a.WellFormed) :
    a.terms.length = a.nBxDFs :=
  filterMap_range_length a.slot a.nBxDFs hw.2

/-- C4: for an aggregate in a state the class can reach (the count within the
capacity, each of the first `nBxDFs` slots holding a term) and every
`flags`, `BSDF::NumComponents(flags)` returns the number of terms `t` held
with `t.MatchesFlags(flags)`, which means `(t.type & flags) == t.type`; the
aggregate holds `NumComponents()` terms, so the result is at most
`NumComponents()`. -/
theorem NumComponentsFlags_counts_matches (a : PBRT.BSDF F n DG) (flags : BxDFType)
    (hw : a.WellFormed) :
    a.NumComponentsFlags flags = some (a.terms.countP fun t => t.MatchesFlags flags) ∧
    (∀ t : BxDF F n, t.MatchesFlags flags = true ↔ t.type &&& flags = t.type) ∧
    a.terms.length = a.NumComponents ∧
    (∀ i, i < a.NumComponents → ∃ t, a.slot i = some t ∧ a.terms.get? i = some t) ∧
    ∃ k, a.NumComponentsFlags flags = some k ∧ 0 ≤ k ∧ k ≤ a.NumComponents := by
  have h1 : a.NumComponentsFlags flags
      = some (a.terms.countP fun t => t.MatchesFlags flags) := by
    unfold BSDF.NumComponentsFlags BSDF.terms
    rw [foldlM_slots_count a flags _ fun i hi => hw.2 i (List.mem_range.1 hi)]
    simp
  have h2 : a.terms.length = a.nBxDFs := terms_length a hw
  refine ⟨h1, ?_, h2, ?_, _, h1, Nat.zero_le _, ?_⟩
  · intro t
    simp [BxDF.MatchesFlags]
  · intro i hi
    obtain ⟨t, ht⟩ := Option.isSome_iff_exists.1 (hw.2 i hi)
    exact ⟨t, ht, by rw [← ht]; exact filterMap_range_get? a.slot a.nBxDFs hw.2 i hi⟩
  · show _ ≤ a.nBxDFs
    rw [← h2]
    exact List.countP_le_length _

/-- The aggregate `exampleTwo` is in a reachable state, and of its two terms
only the Lambertian one matches `BSDF_ALL_REFLECTION`. -/
theorem NumComponentsFlags_counts_matches_witness :
    exampleTwo.WellFormed ∧ exampleTwo.NumComponents = 2 ∧
    exampleTwo.NumComponentsFlags BSDF_ALL_REFLECTION = some 1 := by
  have hw : exampleTwo.WellFormed := by decide
  refine ⟨hw, rfl, ?_⟩
  rw [(NumComponentsFlags_counts_matches exampleTwo BSDF_ALL_REFLECTION hw).1]
  rfl

end AggregateClaims

section FlagTheorems

variable {F : Type} {n : Nat}

/-- C5: each of the six scattering terms whose constructor the header defines
(`SpecularReflection`, `SpecularTransmission`, `Lambertian`, `OrenNayar`,
`IrregIsotropicBRDF`, `RegularHalfangleBRDF`) has, for every choice of the
constructor's arguments, a type with exactly one transport flag and exactly one
sharpness flag set. -/
theorem constructed_terms_oneFlagPerAxis [LinearOrderedField F] (Radians : F → F)
    (r : Spectrum F n) (f : Fresnel F n) (ei et sig : F)
    (d : KdTree (IrregIsotropicBRDFSample F n)) (tab : List F) (nth ntd npd : Nat) :
    BxDFType.oneFlagPerAxis (SpecularReflection.SpecularReflection r f).type ∧
    BxDFType.oneFlagPerAxis (SpecularTransmission.SpecularTransmission r ei et).type ∧
    BxDFType.oneFlagPerAxis (Lambertian.Lambertian r).type ∧
    BxDFType.oneFlagPerAxis (OrenNayar.OrenNayar Radians r sig).type ∧
    BxDFType.oneFlagPerAxis (IrregIsotropicBRDF.IrregIsotropicBRDF d).type ∧
    BxDFType.oneFlagPerAxis
      (RegularHalfangleBRDF.RegularHalfangleBRDF tab nth ntd npd : BxDF F n).type := by
  refine ⟨?_, ?_, ?_, ?_, ?_, ?_⟩
  · show BxDFType.oneFlagPerAxis (BSDF_REFLECTION ||| BSDF_SPECULAR)
    decide
  · show BxDFType.oneFlagPerAxis (BSDF_TRANSMISSION ||| BSDF_SPECULAR)
    decide
  · show BxDFType.oneFlagPerAxis (BSDF_REFLECTION ||| BSDF_DIFFUSE)
    decide
  · show BxDFType.oneFlagPerAxis (BSDF_REFLECTION ||| BSDF_DIFFUSE)
    decide
  · show BxDFType.oneFlagPerAxis (BSDF_REFLECTION ||| BSDF_GLOSSY)
    decide
  · show BxDFType.oneFlagPerAxis (BSDF_REFLECTION ||| BSDF_GLOSSY)
    decide

theorem and_flag_eq_mod (t flag : Nat) (hf : flag < 32) : t &&& flag = (t % 32) &&& flag := by
  apply Nat.eq_of_testBit_eq
  intro i
  rw [Nat.testBit_and, Nat.testBit_and, show (32 : Nat) = 2 ^ 5 from rfl,
    Nat.testBit_mod_two_pow]
  by_cases hi : i < 5
  · simp [hi]
  · have hlt : flag < 2 ^ i :=
      Nat.lt_of_lt_of_le hf (Nat.pow_le_pow_right (show 0 < 2 by decide) (Nat.le_of_not_lt hi))
    simp [hi, Nat.testBit_eq_false_of_lt hlt]

theorem xor_transport_and_flag (t flag : Nat) (hf : flag < 32) :
    (t ^^^ (BSDF_REFLECTION ||| BSDF_TRANSMISSION)) &&& flag
      = ((t % 32) &&& flag) ^^^ (3 &&& flag) := by
  rw [Nat.and_xor_distrib_right, and_flag_eq_mod t flag hf]
  rfl

theorem flags_of_small : ∀ m, m < 32 →
    (∀ flag, flag ∈ transportFlags →
      (((m &&& flag) ^^^ (3 &&& flag)) != 0) = !((m &&& flag) != 0)) ∧
    (∀ flag, flag ∈ sharpnessFlags → (m &&& flag) ^^^ (3 &&& flag) = m &&& flag) := by
  decide

theorem flag_lt_32 (flag : Nat) (h : flag ∈ transportFlags ∨ flag ∈ sharpnessFlags) :
    flag < 32 := by
  rcases h with h | h
  · simp only [transportFlags, List.mem_cons, List.mem_singleton, List.not_mem_nil,
      or_false] at h
    rcases h with h | h <;> subst h <;> decide
  · simp only [sharpnessFlags, List.mem_cons, List.mem_singleton, List.not_mem_nil,
      or_false] at h
    rcases h with h | h | h <;> subst h <;> decide

theorem has_after_toggle (t flag : Nat) (h : flag ∈ transportFlags) :
    BxDFType.has (t ^^^ (BSDF_REFLECTION ||| BSDF_TRANSMISSION)) flag
      = !BxDFType.has t flag := by
  have hf := flag_lt_32 flag (Or.inl h)
  unfold BxDFType.has
  rw [xor_transport_and_flag t flag hf, and_flag_eq_mod t flag hf]
  exact (flags_of_small (t % 32) (Nat.mod_lt _ (by decide))).1 flag h

theorem and_after_toggle (t flag : Nat) (h : flag ∈ sharpnessFlags) :
    (t ^^^ (BSDF_REFLECTION ||| BSDF_TRANSMISSION)) &&& flag = t &&& flag := by
  have hf := flag_lt_32 flag (Or.inr h)
  rw [xor_transport_and_flag t flag hf, and_flag_eq_mod t flag hf]
  exact (flags_of_small (t % 32) (Nat.mod_lt _ (by decide))).2 flag h

theorem exactlyOne_transport_iff (t : BxDFType) :
    BxDFType.exactlyOne t transportFlags ↔
      (BxDFType.has t BSDF_REFLECTION != BxDFType.has t BSDF_TRANSMISSION) = true := by
  unfold BxDFType.exactlyOne transportFlags
  cases h1 : BxDFType.has t BSDF_REFLECTION <;> cases h2 : BxDFType.has t BSDF_TRANSMISSION <;>
    simp [List.filter, h1, h2]

theorem exactlyOne_sharpness_congr (t u : BxDFType)
    (h : ∀ flag, flag ∈ sharpnessFlags → u &&& flag = t &&& flag) :
    BxDFType.exactlyOne u sharpnessFlags ↔ BxDFType.exactlyOne t sharpnessFlags := by
  unfold BxDFType.exactlyOne
  have hfil : sharpnessFlags.filter (fun flag => BxDFType.has u flag)
      = sharpnessFlags.filter (fun flag => BxDFType.has t flag) := by
    apply List.filter_congr
    intro flag hflag
    unfold BxDFType.has
    rw [h flag hflag]
  rw [hfil]

/-- C6: when exactly one of `BSDF_REFLECTION`, `BSDF_TRANSMISSION` is set in the
type of `b`, the type of `BRDFToBTDF(b)` has the other one set and that one
cleared, and agrees with the type of `b` on `BSDF_DIFFUSE`, `BSDF_GLOSSY`
and `BSDF_SPECULAR`; so it again has exactly one transport flag, it has
exactly one sharpness flag when `b` has, and wrapping twice gives back the
type of `b`. -/
theorem BRDFToBTDF_toggles_transport (b : BxDF F n)
    (h : BxDFType.exactlyOne b.type transportFlags) :
    (BxDFType.has b.type BSDF_REFLECTION = true →
      BxDFType.has (BRDFToBTDF.BRDFToBTDF b).type BSDF_TRANSMISSION = true ∧
      BxDFType.has (BRDFToBTDF.BRDFToBTDF b).type BSDF_REFLECTION = false) ∧
    (BxDFType.has b.type BSDF_TRANSMISSION = true →
      BxDFType.has (BRDFToBTDF.BRDFToBTDF b).type BSDF_REFLECTION = true ∧
      BxDFType.has (BRDFToBTDF.BRDFToBTDF b).type BSDF_TRANSMISSION = false) ∧
    (∀ flag, flag ∈ sharpnessFlags →
      (BRDFToBTDF.BRDFToBTDF b).type &&& flag = b.type &&& flag) ∧
    BxDFType.exactlyOne (BRDFToBTDF.BRDFToBTDF b).type transportFlags ∧
    (BxDFType.oneFlagPerAxis b.type →
      BxDFType.oneFlagPerAxis (BRDFToBTDF.BRDFToBTDF b).type) ∧
    (BRDFToBTDF.BRDFToBTDF (BRDFToBTDF.BRDFToBTDF b)).type = b.type := by
  have hR : BSDF_REFLECTION ∈ transportFlags := by simp [transportFlags]
  have hT : BSDF_TRANSMISSION ∈ transportFlags := by simp [transportFlags]
  have htype : (BRDFToBTDF.BRDFToBTDF b).type
      = b.type ^^^ (BSDF_REFLECTION ||| BSDF_TRANSMISSION) := rfl
  have h1 := has_after_toggle b.type BSDF_REFLECTION hR
  have h2 := has_after_toggle b.type BSDF_TRANSMISSION hT
  have hx := (exactlyOne_transport_iff b.type).1 h
  have hs : ∀ flag, flag ∈ sharpnessFlags →
      (BRDFToBTDF.BRDFToBTDF b).type &&& flag = b.type &&& flag := by
    intro flag hflag
    rw [htype]
    exact and_after_toggle b.type flag hflag
  have hone : BxDFType.exactlyOne (BRDFToBTDF.BRDFToBTDF b).type transportFlags := by
    rw [exactlyOne_transport_iff, htype, h1, h2]
    revert hx
    cases BxDFType.has b.type BSDF_REFLECTION <;>
      cases BxDFType.has b.type BSDF_TRANSMISSION <;> simp
  refine ⟨?_, ?_, hs, hone, ?_, ?_⟩
  · intro hr
    rw [htype, h1, h2]
    rw [hr] at hx
    revert hx
    cases BxDFType.has b.type BSDF_TRANSMISSION <;> simp [hr]
  · intro ht
    rw [htype, h1, h2]
    rw [ht] at hx
    revert hx
    cases BxDFType.has b.type BSDF_REFLECTION <;> simp [ht]
  · intro hb
    exact ⟨hone, (exactlyOne_sharpness_congr b.type _ hs).2 hb.2⟩
  · show (b.type ^^^ (BSDF_REFLECTION ||| BSDF_TRANSMISSION))
      ^^^ (BSDF_REFLECTION ||| BSDF_TRANSMISSION) = b.type
    exact Nat.xor_cancel_right _ _

/-- The Lambertian term `exampleTerm` has exactly one transport flag
(`BSDF_REFLECTION`); wrapped, it has `BSDF_TRANSMISSION` and keeps one flag on
each axis. -/
theorem BRDFToBTDF_toggles_transport_witness :
    BxDFType.exactlyOne exampleTerm.type transportFlags ∧
    BxDFType.has (BRDFToBTDF.BRDFToBTDF exampleTerm).type BSDF_TRANSMISSION = true ∧
    BxDFType.has (BRDFToBTDF.BRDFToBTDF exampleTerm).type BSDF_REFLECTION = false ∧
    BxDFType.oneFlagPerAxis (BRDFToBTDF.BRDFToBTDF exampleTerm).type :=
  have h : BxDFType.exactlyOne exampleTerm.type transportFlags := by decide
  have hc := BRDFToBTDF_toggles_transport exampleTerm h
  ⟨h, (hc.1 (by decide)).1, (hc.1 (by decide)).2, hc.2.2.2.2.1 (by decide)⟩

end FlagTheorems

section AdapterTheorems

variable {F : Type} [LinearOrderedField F] {n : Nat}

/-- C7: `ScaledBxDF(b, s)` has the type of `b`, and each of its two `rho`
methods returns `s` times what the same method of `b` returns for the same
arguments, the product being taken sample by sample. -/
theorem ScaledBxDF_type_and_rho (b : BxDF F n) (s : Spectrum F n)
    (outOfLineRho : BxDF F n → Vector F → Int → List F → Spectrum F n)
    (outOfLineRhoHH : BxDF F n → Int → List F → List F → Spectrum F n)
    (w : Vector F) (nSamples : Int) (samples samples1 samples2 : List F) :
    (ScaledBxDF.ScaledBxDF b s).type = b.type ∧
    (ScaledBxDF.ScaledBxDF b s).rho outOfLineRho w nSamples samples
      = s * b.rho outOfLineRho w nSamples samples ∧
    (ScaledBxDF.ScaledBxDF b s).rhoHH outOfLineRhoHH nSamples samples1 samples2
      = s * b.rhoHH outOfLineRhoHH nSamples samples1 samples2 ∧
    (∀ i, ((ScaledBxDF.ScaledBxDF b s).rho outOfLineRho w nSamples samples).c i
      = s.c i * (b.rho outOfLineRho w nSamples samples).c i) ∧
    (∀ i, ((ScaledBxDF.ScaledBxDF b s).rhoHH outOfLineRhoHH nSamples samples1 samples2).c i
      = s.c i * (b.rhoHH outOfLineRhoHH nSamples samples1 samples2).c i) := by
  have h1 : (ScaledBxDF.ScaledBxDF b s).rho outOfLineRho w nSamples samples
      = s * b.rho outOfLineRho w nSamples samples := by
    simp only [ScaledBxDF.ScaledBxDF, BxDF.rho]
  have h2 : (ScaledBxDF.ScaledBxDF b s).rhoHH outOfLineRhoHH nSamples samples1 samples2
      = s * b.rhoHH outOfLineRhoHH nSamples samples1 samples2 := by
    simp only [ScaledBxDF.ScaledBxDF, BxDF.rhoHH]
  refine ⟨rfl, h1, h2, ?_, ?_⟩
  · intro i
    rw [h1]
    rfl
  · intro i
    rw [h2]
    rfl

/-- C8: both `rho` methods of a Lambertian term constructed with reflectance
`R` return `R`, whatever the direction, the sample count and the sample
arrays. -/
theorem Lambertian_rho_eq_R (R : Spectrum F n)
    (outOfLineRho : BxDF F n → Vector F → Int → List F → Spectrum F n)
    (outOfLineRhoHH : BxDF F n → Int → List F → List F → Spectrum F n)
    (w : Vector F) (nSamples : Int) (samples samples1 samples2 : List F) :
    (Lambertian.Lambertian R).rho outOfLineRho w nSamples samples = R ∧
    (Lambertian.Lambertian R).rhoHH outOfLineRhoHH nSamples samples1 samples2 = R := by
  constructor
  · simp only [Lambertian.Lambertian, BxDF.rho]
  · simp only [Lambertian.Lambertian, BxDF.rhoHH]

end AdapterTheorems

section SampleTheorems

variable {F : Type} [LinearOrderedField F]

theorem BSDFSample_of_valid (up0 up1 ucomp : F) (h0 : up0 ≥ 0 ∧ up0 < 1)
    (h1 : up1 ≥ 0 ∧ up1 < 1) (h2 : ucomp ≥ 0 ∧ ucomp < 1) :
    BSDFSample.BSDFSample up0 up1 ucomp
      = Except.ok { uDir := ![up0, up1], uComponent := ucomp } := by
  unfold BSDFSample.BSDFSample
  rw [Assert_of_holds _ h0, Assert_of_holds _ h1, Assert_of_holds _ h2]

theorem BSDFSample_of_invalid (up0 up1 ucomp : F)
    (h : ¬ ((up0 ≥ 0 ∧ up0 < 1) ∧ (up1 ≥ 0 ∧ up1 < 1) ∧ (ucomp ≥ 0 ∧ ucomp < 1))) :
    BSDFSample.BSDFSample up0 up1 ucomp = Except.error Severe.assertionFailed := by
  unfold BSDFSample.BSDFSample
  by_cases h0 : up0 ≥ 0 ∧ up0 < 1
  · rw [Assert_of_holds _ h0]
    by_cases h1 : up1 ≥ 0 ∧ up1 < 1
    · rw [Assert_of_holds _ h1]
      by_cases h2 : ucomp ≥ 0 ∧ ucomp < 1
      · exact absurd ⟨h0, h1, h2⟩ h
      · rw [Assert_of_fails _ h2]
    · rw [Assert_of_fails _ h1]
  · rw [Assert_of_fails _ h0]

/-- C9: `BSDFSample(up0, up1, ucomp)` is accepted if and only if each of the
three values `v` satisfies `0 <= v < 1`; otherwise (in particular when one of
them is 1 or negative) the construction ends in the assertion failure, no
value being clamped; and when it is accepted, `uDir[0]`, `uDir[1]` and
`uComponent` are `up0`, `up1` and `ucomp`. -/
theorem BSDFSample_accepted_iff (up0 up1 ucomp : F) :
    ((∃ s, BSDFSample.BSDFSample up0 up1 ucomp = Except.ok s) ↔
      (0 ≤ up0 ∧ up0 < 1) ∧ (0 ≤ up1 ∧ up1 < 1) ∧ (0 ≤ ucomp ∧ ucomp < 1)) ∧
    (¬ ((0 ≤ up0 ∧ up0 < 1) ∧ (0 ≤ up1 ∧ up1 < 1) ∧ (0 ≤ ucomp ∧ ucomp < 1)) →
      BSDFSample.BSDFSample up0 up1 ucomp = Except.error Severe.assertionFailed) ∧
    ((up0 = 1 ∨ up1 = 1 ∨ ucomp = 1 ∨ up0 < 0 ∨ up1 < 0 ∨ ucomp < 0) →
      BSDFSample.BSDFSample up0 up1 ucomp = Except.error Severe.assertionFailed) ∧
    (∀ s, BSDFSample.BSDFSample up0 up1 ucomp = Except.ok s →
      s.uDir 0 = up0 ∧ s.uDir 1 = up1 ∧ s.uComponent = ucomp) := by
  refine ⟨⟨?_, ?_⟩, BSDFSample_of_invalid up0 up1 ucomp, ?_, ?_⟩
  · rintro ⟨s, hs⟩
    by_contra hc
    rw [BSDFSample_of_invalid up0 up1 ucomp hc] at hs
    cases hs
  · rintro ⟨h0, h1, h2⟩
    exact ⟨_, BSDFSample_of_valid up0 up1 ucomp h0 h1 h2⟩
  · intro hbad
    apply BSDFSample_of_invalid
    rintro ⟨⟨h0, h0'⟩, ⟨h1, h1'⟩, ⟨h2, h2'⟩⟩
    rcases hbad with h | h | h | h | h | h
    · exact absurd h (ne_of_lt h0')
    · exact absurd h (ne_of_lt h1')
    · exact absurd h (ne_of_lt h2')
    · exact absurd h (not_lt_of_le h0)
    · exact absurd h (not_lt_of_le h1)
    · exact absurd h (not_lt_of_le h2)
  · intro s hs
    by_cases hc : (up0 ≥ 0 ∧ up0 < 1) ∧ (up1 ≥ 0 ∧ up1 < 1) ∧ (ucomp ≥ 0 ∧ ucomp < 1)
    · rw [BSDFSample_of_valid up0 up1 ucomp hc.1 hc.2.1 hc.2.2] at hs
      cases hs
      exact ⟨rfl, rfl, rfl⟩
    · rw [BSDFSample_of_invalid up0 up1 ucomp hc] at hs
      cases hs

end SampleTheorems

section FrameTheorems

variable {F : Type} [LinearOrderedField F] {n : Nat} {DG : Type}

theorem frame_columns (a : PBRT.BSDF F n DG) (h : a.frameOrthonormal) :
    (a.sn.x * a.sn.x + a.tn.x * a.tn.x + a.nn.x * a.nn.x = 1 ∧
     a.sn.y * a.sn.y + a.tn.y * a.tn.y + a.nn.y * a.nn.y = 1 ∧
     a.sn.z * a.sn.z + a.tn.z * a.tn.z + a.nn.z * a.nn.z = 1) ∧
    (a.sn.x * a.sn.y + a.tn.x * a.tn.y + a.nn.x * a.nn.y = 0 ∧
     a.sn.x * a.sn.z + a.tn.x * a.tn.z + a.nn.x * a.nn.z = 0 ∧
     a.sn.y * a.sn.z + a.tn.y * a.tn.z + a.nn.y * a.nn.z = 0) := by
  obtain ⟨h1, h2, h3, h4, h5, h6⟩ := h
  simp only [Dot, DotVN] at h1 h2 h4 h5 h6
  let M : Matrix (Fin 3) (Fin 3) F :=
    !![a.sn.x, a.sn.y, a.sn.z; a.tn.x, a.tn.y, a.tn.z; a.nn.x, a.nn.y, a.nn.z]
  let N : Matrix (Fin 3) (Fin 3) F :=
    !![a.sn.x, a.tn.x, a.nn.x; a.sn.y, a.tn.y, a.nn.y; a.sn.z, a.tn.z, a.nn.z]
  have hrows : M * N = 1 := by
    ext i j
    fin_cases i <;> fin_cases j <;>
      simp [M, N, Matrix.mul_apply, Fin.sum_univ_three, Matrix.one_apply] <;>
      linarith
  have hcols : N * M = 1 := Matrix.mul_eq_one_comm.1 hrows
  have e := fun i j => congrFun (congrFun hcols i) j
  have e00 := e 0 0
  have e11 := e 1 1
  have e22 := e 2 2
  have e01 := e 0 1
  have e02 := e 0 2
  have e12 := e 1 2
  simp [M, N, Matrix.mul_apply, Fin.sum_univ_three, Matrix.one_apply] at e00 e11 e22 e01 e02 e12
  exact ⟨⟨e00, e11, e22⟩, e01, e02, e12⟩

/-- C11: when the frame vectors `sn`, `tn`, `nn` of an aggregate are
orthonormal, `LocalToWorld(WorldToLocal(v)) = v` and
`WorldToLocal(LocalToWorld(v)) = v` for every vector `v`, in exact
arithmetic. -/
theorem frame_conversions_inverse (a : PBRT.BSDF F n DG) (h : a.frameOrthonormal)
    (v : Vector F) :
    a.LocalToWorld (a.WorldToLocal v) = v ∧ a.WorldToLocal (a.LocalToWorld v) = v := by
  obtain ⟨⟨c1, c2, c3⟩, c4, c5, c6⟩ := frame_columns a h
  obtain ⟨h1, h2, h3, h4, h5, h6⟩ := h
  simp only [Dot, DotVN] at h1 h2 h4 h5 h6
  obtain ⟨vx, vy, vz⟩ := v
  constructor
  · simp only [BSDF.LocalToWorld, BSDF.WorldToLocal, Dot, DotVN, Vector.mk.injEq]
    refine ⟨?_, ?_, ?_⟩
    · linear_combination vx * c1 + vy * c4 + vz * c5
    · linear_combination vx * c4 + vy * c2 + vz * c6
    · linear_combination vx * c5 + vy * c6 + vz * c3
  · simp only [BSDF.LocalToWorld, BSDF.WorldToLocal, Dot, DotVN, Vector.mk.injEq]
    refine ⟨?_, ?_, ?_⟩
    · linear_combination vx * h1 + vy * h4 + vz * h5
    · linear_combination vx * h4 + vy * h2 + vz * h6
    · linear_combination vx * h5 + vy * h6 + vz * h3

/-- The frame of `exampleTurned` is orthonormal, and the two conversions undo
each other at the vector `(1, 2, 3)`. -/
theorem frame_conversions_inverse_witness :
    exampleTurned.frameOrthonormal ∧
    exampleTurned.LocalToWorld (exampleTurned.WorldToLocal ⟨1, 2, 3⟩) = ⟨1, 2, 3⟩ ∧
    exampleTurned.WorldToLocal (exampleTurned.LocalToWorld ⟨1, 2, 3⟩) = ⟨1, 2, 3⟩ := by
  have h : exampleTurned.frameOrthonormal := by
    simp only [BSDF.frameOrthonormal, exampleTurned, BSDF.BSDF, Dot, DotVN]
    norm_num
  exact ⟨h, frame_conversions_inverse exampleTurned h ⟨1, 2, 3⟩⟩

end FrameTheorems

section NumericTheorems

variable {F : Type} [LinearOrderedField F] {n : Nat}

/-- C12: an `OrenNayar` term constructed with roughness `sig = 0` degrees has
the coefficients `A = 1` and `B = 0` exactly: `Radians(0) = 0`, so
`sigma2 = 0`, `A = 1 - 0 / (2 * 0.33)` and `B = 0.45 * 0 / 0.09`.  This holds
for the conversion of degrees to radians with any value of `M_PI`, and for
any conversion that sends 0 to 0. -/
theorem OrenNayar_zero_roughness (pi : F) (reflectance : Spectrum F n) :
    (Radians pi 0 = 0) ∧
    OrenNayar.OrenNayar (Radians pi) reflectance 0
      = BxDF.OrenNayar (BSDF_REFLECTION ||| BSDF_DIFFUSE) reflectance 1 0 ∧
    (∀ toRadians : F → F, toRadians 0 = 0 →
      OrenNayar.OrenNayar toRadians reflectance 0
        = BxDF.OrenNayar (BSDF_REFLECTION ||| BSDF_DIFFUSE) reflectance 1 0) := by
  have hr : Radians pi 0 = 0 := by simp [Radians]
  have key : ∀ toRadians : F → F, toRadians 0 = 0 →
      OrenNayar.OrenNayar toRadians reflectance 0
        = BxDF.OrenNayar (BSDF_REFLECTION ||| BSDF_DIFFUSE) reflectance 1 0 := by
    intro toRadians h0
    simp [OrenNayar.OrenNayar, h0]
  exact ⟨hr, key _ hr, key⟩

/-- C13: when `dot(wo, wh)` is not zero, `Microfacet::G(wo, wi, wh)` lies
between 0 and 1 and is the least of 1, `2 |wh.z| |wo.z| / |dot(wo, wh)|` and
`2 |wh.z| |wi.z| / |dot(wo, wh)|`; multiplied by `|dot(wo, wh)|` it is the
least of `|dot(wo, wh)|`, `2 |wh.z| |wo.z|` and `2 |wh.z| |wi.z|`. -/
theorem Microfacet_G_range (wo wi wh : Vector F) (h : Dot wo wh ≠ 0) :
    0 ≤ Microfacet.G wo wi wh ∧ Microfacet.G wo wi wh ≤ 1 ∧
    Microfacet.G wo wi wh
      = min 1 (min (2 * |wh.z| * |wo.z| / |Dot wo wh|) (2 * |wh.z| * |wi.z| / |Dot wo wh|)) ∧
    Microfacet.G wo wi wh * |Dot wo wh|
      = min |Dot wo wh| (min (2 * |wh.z| * |wo.z|) (2 * |wh.z| * |wi.z|)) := by
  have hd : 0 < |Dot wo wh| := abs_pos.2 h
  have hG : Microfacet.G wo wi wh
      = min 1 (min (2 * |wh.z| * |wo.z| / |Dot wo wh|)
          (2 * |wh.z| * |wi.z| / |Dot wo wh|)) := rfl
  have ho : 0 ≤ 2 * |wh.z| * |wo.z| / |Dot wo wh| :=
    div_nonneg (mul_nonneg (mul_nonneg (by norm_num) (abs_nonneg _)) (abs_nonneg _))
      (le_of_lt hd)
  have hi : 0 ≤ 2 * |wh.z| * |wi.z| / |Dot wo wh| :=
    div_nonneg (mul_nonneg (mul_nonneg (by norm_num) (abs_nonneg _)) (abs_nonneg _))
      (le_of_lt hd)
  refine ⟨?_, ?_, hG, ?_⟩
  · rw [hG]
    exact le_min zero_le_one (le_min ho hi)
  · rw [hG]
    exact min_le_left _ _
  · rw [hG, min_mul_of_nonneg _ _ (le_of_lt hd), min_mul_of_nonneg _ _ (le_of_lt hd),
      one_mul, div_mul_cancel₀ _ (ne_of_gt hd), div_mul_cancel₀ _ (ne_of_gt hd)]

/-- The directions `wo = wi = wh = (0, 0, 1)` have a non-zero dot product, and
`G` is 1 there. -/
theorem Microfacet_G_range_witness :
    Dot (⟨0, 0, 1⟩ : Vector ℚ) ⟨0, 0, 1⟩ ≠ 0 ∧
    Microfacet.G (⟨0, 0, 1⟩ : Vector ℚ) ⟨0, 0, 1⟩ ⟨0, 0, 1⟩ ≤ 1 ∧
    0 ≤ Microfacet.G (⟨0, 0, 1⟩ : Vector ℚ) ⟨0, 0, 1⟩ ⟨0, 0, 1⟩ := by
  have h : Dot (⟨0, 0, 1⟩ : Vector ℚ) ⟨0, 0, 1⟩ ≠ 0 := by
    simp [Dot]
  have hc := Microfacet_G_range (⟨0, 0, 1⟩ : Vector ℚ) ⟨0, 0, 1⟩ ⟨0, 0, 1⟩ h
  exact ⟨h, hc.2.1, hc.1⟩

theorem clamp_exponent (e : F) :
    (if e > 10000 ∨ isnan e = true then 10000 else e) = min e 10000 := by
  by_cases h : e > 10000
  · rw [if_pos (Or.inl h), min_eq_right (le_of_lt h)]
  · have hn : ¬ (e > 10000 ∨ isnan e = true) := by
      rintro (h1 | h1)
      · exact h h1
      · simp [isnan] at h1
    rw [if_neg hn, min_eq_left (le_of_not_lt h)]

/-- C14: `Blinn(e)` stores `min(e, 10000)`, and `Anisotropic(x, y)` stores
`ex = min(x, 10000)` and `ey = min(y, 10000)`, each exponent on its own; so a
stored exponent is at most 10000, and an input that is at most 10000 is
stored unchanged. -/
theorem exponents_clamped (e x y : F) :
    Blinn.Blinn e = MicrofacetDistribution.Blinn (min e 10000) ∧
    Anisotropic.Anisotropic x y
      = MicrofacetDistribution.Anisotropic (min x 10000) (min y 10000) ∧
    (min e 10000 ≤ 10000 ∧ min x 10000 ≤ 10000 ∧ min y 10000 ≤ 10000) ∧
    (e ≤ 10000 → Blinn.Blinn e = MicrofacetDistribution.Blinn e) ∧
    (x ≤ 10000 → ∃ ey, Anisotropic.Anisotropic x y = MicrofacetDistribution.Anisotropic x ey) ∧
    (y ≤ 10000 → ∃ ex, Anisotropic.Anisotropic x y = MicrofacetDistribution.Anisotropic ex y) := by
  have hB : Blinn.Blinn e = MicrofacetDistribution.Blinn (min e 10000) := by
    simp only [Blinn.Blinn, clamp_exponent]
  have hA : Anisotropic.Anisotropic x y
      = MicrofacetDistribution.Anisotropic (min x 10000) (min y 10000) := by
    simp only [Anisotropic.Anisotropic, clamp_exponent]
  refine ⟨hB, hA, ⟨min_le_right _ _, min_le_right _ _, min_le_right _ _⟩, ?_, ?_, ?_⟩
  · intro he
    rw [hB, min_eq_left he]
  · intro hx
    exact ⟨min y 10000, by rw [hA, min_eq_left hx]⟩
  · intro hy
    exact ⟨min x 10000, by rw [hA, min_eq_left hy]⟩

end NumericTheorems

section SchlickTheorems

variable {F : Type} [LinearOrderedField F] {n : Nat}

theorem SchlickFresnel_sample (powf : F → F → F) (hpow : ∀ x : F, powf x 5 = x ^ 5)
    (Rs : Spectrum F n) (c : F) (i : Fin n) :
    (FresnelBlend.SchlickFresnel powf Rs c).c i = Rs.c i + (1 - c) ^ 5 * (1 - Rs.c i) := by
  rw [← hpow]
  rfl

/-- C15: provided `powf(x, 5.f)` is the fifth power of `x`,
`FresnelBlend::SchlickFresnel(c)` is `Rs + (1 - c)^5 * (1 - Rs)` in every
sample; it is `Rs` at `c = 1` and the spectrum of ones at `c = 0`; and for
`c` in `[0, 1]`, in a sample where `Rs` is in `[0, 1]`, it lies between `Rs`
and 1 and does not increase when `c` grows within `[0, 1]`. -/
theorem SchlickFresnel_formula (powf : F → F → F) (hpow : ∀ x : F, powf x 5 = x ^ 5)
    (Rs : Spectrum F n) (c : F) :
    (∀ i, (FresnelBlend.SchlickFresnel powf Rs c).c i
      = Rs.c i + (1 - c) ^ 5 * (1 - Rs.c i)) ∧
    FresnelBlend.SchlickFresnel powf Rs 1 = Rs ∧
    FresnelBlend.SchlickFresnel powf Rs 0 = Spectrum.ofFloat 1 ∧
    (0 ≤ c → c ≤ 1 → ∀ i, 0 ≤ Rs.c i → Rs.c i ≤ 1 →
      Rs.c i ≤ (FresnelBlend.SchlickFresnel powf Rs c).c i ∧
      (FresnelBlend.SchlickFresnel powf Rs c).c i ≤ 1) ∧
    (∀ c2, 0 ≤ c → c ≤ c2 → c2 ≤ 1 → ∀ i, 0 ≤ Rs.c i → Rs.c i ≤ 1 →
      (FresnelBlend.SchlickFresnel powf Rs c2).c i
        ≤ (FresnelBlend.SchlickFresnel powf Rs c).c i) := by
  have hs := SchlickFresnel_sample powf hpow Rs
  refine ⟨hs c, ?_, ?_, ?_, ?_⟩
  · ext i
    rw [hs 1 i]
    ring
  · ext i
    rw [hs 0 i]
    show Rs.c i + (1 - 0) ^ 5 * (1 - Rs.c i) = 1
    ring
  · intro h0 h1 i hr0 hr1
    have hp0 : 0 ≤ (1 - c) ^ 5 := pow_nonneg (sub_nonneg.2 h1) 5
    have hp1 : (1 - c) ^ 5 ≤ 1 := pow_le_one₀ (sub_nonneg.2 h1) (by linarith)
    have hq : 0 ≤ 1 - Rs.c i := sub_nonneg.2 hr1
    rw [hs c i]
    constructor
    · have := mul_nonneg hp0 hq
      linarith
    · have := mul_le_of_le_one_left hq hp1
      linarith
  · intro c2 h0 h12 h2 i hr0 hr1
    have hq : 0 ≤ 1 - Rs.c i := sub_nonneg.2 hr1
    have hp : (1 - c2) ^ 5 ≤ (1 - c) ^ 5 :=
      pow_le_pow_left₀ (sub_nonneg.2 h2) (by linarith) 5
    rw [hs c2 i, hs c i]
    have := mul_le_mul_of_nonneg_right hp hq
    linarith

/-- The real power function is the fifth power at the exponent 5, and with it
`SchlickFresnel` returns `Rs` at `c = 1`. -/
theorem SchlickFresnel_formula_witness :
    (∀ x : ℝ, (fun a b : ℝ => a ^ b) x 5 = x ^ 5) ∧
    FresnelBlend.SchlickFresnel (fun a b : ℝ => a ^ b) (Spectrum.ofFloat (1 / 2) : Spectrum ℝ 3) 1
      = Spectrum.ofFloat (1 / 2) := by
  have hpow : ∀ x : ℝ, (fun a b : ℝ => a ^ b) x 5 = x ^ 5 := by
    intro x
    show x ^ (5 : ℝ) = x ^ 5
    have h5 := Real.rpow_natCast x 5
    simpa using h5
  exact ⟨hpow, (SchlickFresnel_formula _ hpow (Spectrum.ofFloat (1 / 2)) 0).2.1⟩

end SchlickTheorems

section AzimuthTheorems

variable {F : Type} [LinearOrderedField F]

theorem Clamp_eq_max_min (val low high : F) (h : low ≤ high) :
    Clamp val low high = max low (min val high) := by
  unfold Clamp
  by_cases h1 : val < low
  · rw [if_pos h1, min_eq_left (le_trans (le_of_lt h1) h), max_eq_left (le_of_lt h1)]
  · rw [if_neg h1]
    by_cases h2 : val > high
    · rw [if_pos h2, min_eq_right (le_of_lt h2), max_eq_right h]
    · rw [if_neg h2, min_eq_left (le_of_not_lt h2), max_eq_right (le_of_not_lt h1)]

theorem Clamp_mem (val low high : F) (h : low ≤ high) :
    low ≤ Clamp val low high ∧ Clamp val low high ≤ high := by
  rw [Clamp_eq_max_min val low high h]
  exact ⟨le_max_left _ _, max_le h (min_le_right _ _)⟩

theorem SinTheta_eq_zero_iff (sqrtf : F → F) (hsqrt : ∀ x : F, 0 ≤ x → (sqrtf x = 0 ↔ x = 0))
    (w : Vector F) : SinTheta sqrtf w = 0 ↔ w.z * w.z ≥ 1 := by
  unfold SinTheta SinTheta2 CosTheta
  rw [hsqrt _ (le_max_left _ _), max_eq_left_iff, sub_nonpos]

/-- C16: provided `sqrtf` vanishes, among the non-negative numbers, at 0 only:
`SinTheta(w)` is 0 exactly when `w.z * w.z >= 1`; in that case `CosPhi(w)` is
the constant 1 and `SinPhi(w)` the constant 0, the quotient not being formed;
in every other case the divisor `SinTheta(w)` is not 0 and `CosPhi(w)`,
`SinPhi(w)` are `w.x / SinTheta(w)`, `w.y / SinTheta(w)` clamped into
`[-1, 1]`. -/
theorem azimuth_pole_safe (sqrtf : F → F)
    (hsqrt : ∀ x : F, 0 ≤ x → (sqrtf x = 0 ↔ x = 0)) (w : Vector F) :
    (SinTheta sqrtf w = 0 ↔ w.z * w.z ≥ 1) ∧
    (w.z * w.z ≥ 1 → CosPhi sqrtf w = 1 ∧ SinPhi sqrtf w = 0) ∧
    (¬ w.z * w.z ≥ 1 → SinTheta sqrtf w ≠ 0 ∧
      CosPhi sqrtf w = Clamp (w.x / SinTheta sqrtf w) (-1) 1 ∧
      SinPhi sqrtf w = Clamp (w.y / SinTheta sqrtf w) (-1) 1) ∧
    (∀ val : F, Clamp val (-1) 1 = max (-1) (min val 1) ∧
      -1 ≤ Clamp val (-1) 1 ∧ Clamp val (-1) 1 ≤ 1) ∧
    (-1 ≤ CosPhi sqrtf w ∧ CosPhi sqrtf w ≤ 1 ∧ -1 ≤ SinPhi sqrtf w ∧ SinPhi sqrtf w ≤ 1) := by
  have hiff := SinTheta_eq_zero_iff sqrtf hsqrt w
  have hle : (-1 : F) ≤ 1 := by norm_num
  have hpole : w.z * w.z ≥ 1 → CosPhi sqrtf w = 1 ∧ SinPhi sqrtf w = 0 := by
    intro hz
    have h0 := hiff.2 hz
    simp only [CosPhi, SinPhi, h0, if_true, and_self]
  have hoff : ¬ w.z * w.z ≥ 1 → SinTheta sqrtf w ≠ 0 ∧
      CosPhi sqrtf w = Clamp (w.x / SinTheta sqrtf w) (-1) 1 ∧
      SinPhi sqrtf w = Clamp (w.y / SinTheta sqrtf w) (-1) 1 := by
    intro hz
    have h0 : SinTheta sqrtf w ≠ 0 := fun hc => hz (hiff.1 hc)
    simp only [CosPhi, SinPhi, h0, if_false, ne_eq, not_false_eq_true, and_self]
  refine ⟨hiff, hpole, hoff, ?_, ?_⟩
  · intro val
    exact ⟨Clamp_eq_max_min val (-1) 1 hle, Clamp_mem val (-1) 1 hle⟩
  · by_cases hz : w.z * w.z ≥ 1
    · obtain ⟨hc, hs⟩ := hpole hz
      rw [hc, hs]
      norm_num
    · obtain ⟨_, hc, hs⟩ := hoff hz
      rw [hc, hs]
      exact ⟨(Clamp_mem _ _ _ hle).1, (Clamp_mem _ _ _ hle).2,
        (Clamp_mem _ _ _ hle).1, (Clamp_mem _ _ _ hle).2⟩

/-- The real square root vanishes among the non-negative numbers at 0 only, and
at the pole `(0, 0, 1)` the two functions return 1 and 0. -/
theorem azimuth_pole_safe_witness :
    (∀ x : ℝ, 0 ≤ x → (Real.sqrt x = 0 ↔ x = 0)) ∧
    CosPhi Real.sqrt (⟨0, 0, 1⟩ : Vector ℝ) = 1 ∧
    SinPhi Real.sqrt (⟨0, 0, 1⟩ : Vector ℝ) = 0 := by
  have hsqrt : ∀ x : ℝ, 0 ≤ x → (Real.sqrt x = 0 ↔ x = 0) :=
    fun x hx => Real.sqrt_eq_zero hx
  exact ⟨hsqrt, (azimuth_pole_safe Real.sqrt hsqrt ⟨0, 0, 1⟩).2.1 (by norm_num)⟩

end AzimuthTheorems

section DelegationTheorems

variable {F : Type} [LinearOrderedField F] {n : Nat}

/-- C17: for every argument, `FresnelNoOp::Evaluate` returns the spectrum whose
samples are all 1, whatever the argument and whatever the out-of-line
`Evaluate` methods of the other Fresnel classes do. -/
theorem FresnelNoOp_Evaluate_one (outOfLine : Fresnel F n → F → Spectrum F n) (cosi : F) :
    Fresnel.Evaluate outOfLine Fresnel.FresnelNoOp cosi = Spectrum.ofFloat 1 ∧
    ∀ i, (Fresnel.Evaluate outOfLine Fresnel.FresnelNoOp cosi).c i = 1 :=
  ⟨rfl, fun _ => rfl⟩

/-- C19: `BRDFToBTDF::rho(w, nSamples, samples)` is the `rho` of the wrapped
term at the direction `(w.x, w.y, -w.z)`, which is `otherHemisphere(w)`, with
the same count and samples; and `BRDFToBTDF::rho(nSamples, samples1,
samples2)` is the result of the wrapped term for the same arguments. -/
theorem BRDFToBTDF_rho_delegates (t : BxDFType) (b : BxDF F n)
    (outOfLineRho : BxDF F n → Vector F → Int → List F → Spectrum F n)
    (outOfLineRhoHH : BxDF F n → Int → List F → List F → Spectrum F n)
    (w : Vector F) (nSamples : Int) (samples samples1 samples2 : List F) :
    BRDFToBTDF.otherHemisphere w = ⟨w.x, w.y, -w.z⟩ ∧
    (BxDF.BRDFToBTDF t b).rho outOfLineRho w nSamples samples
      = b.rho outOfLineRho ⟨w.x, w.y, -w.z⟩ nSamples samples ∧
    (BxDF.BRDFToBTDF t b).rhoHH outOfLineRhoHH nSamples samples1 samples2
      = b.rhoHH outOfLineRhoHH nSamples samples1 samples2 ∧
    (BRDFToBTDF.BRDFToBTDF b).rho outOfLineRho w nSamples samples
      = b.rho outOfLineRho ⟨w.x, w.y, -w.z⟩ nSamples samples ∧
    (BRDFToBTDF.BRDFToBTDF b).rhoHH outOfLineRhoHH nSamples samples1 samples2
      = b.rhoHH outOfLineRhoHH nSamples samples1 samples2 := by
  refine ⟨rfl, ?_, ?_, ?_, ?_⟩
  · simp only [BxDF.rho, BRDFToBTDF.otherHemisphere]
  · simp only [BxDF.rhoHH]
  · simp only [BRDFToBTDF.BRDFToBTDF, BxDF.rho, BRDFToBTDF.otherHemisphere]
  · simp only [BRDFToBTDF.BRDFToBTDF, BxDF.rhoHH]

/-- C20: for a half-vector with `wh.z * wh.z = 1`, `Anisotropic::D(wh)` returns
0, the quotient by `1 - costhetah * costhetah` not being formed; for every
other half-vector that divisor is not 0 and `D(wh)` is
`sqrtf((ex+2) * (ey+2)) * INV_TWOPI * powf(costhetah, e)` with
`e = (ex * wh.x * wh.x + ey * wh.y * wh.y) / (1 - costhetah * costhetah)`. -/
theorem Anisotropic_D_pole (INV_TWOPI : F) (sqrtf : F → F) (powf : F → F → F)
    (ex ey : F) (wh : Vector F) :
    (1 - AbsCosTheta wh * AbsCosTheta wh = 0 ↔ wh.z * wh.z = 1) ∧
    (wh.z * wh.z = 1 →
      (MicrofacetDistribution.Anisotropic ex ey).D INV_TWOPI sqrtf powf wh = 0) ∧
    (wh.z * wh.z ≠ 1 →
      1 - AbsCosTheta wh * AbsCosTheta wh ≠ 0 ∧
      (MicrofacetDistribution.Anisotropic ex ey).D INV_TWOPI sqrtf powf wh
        = sqrtf ((ex + 2) * (ey + 2)) * INV_TWOPI *
            powf (AbsCosTheta wh)
              ((ex * wh.x * wh.x + ey * wh.y * wh.y)
                / (1 - AbsCosTheta wh * AbsCosTheta wh))) := by
  have hiff : 1 - AbsCosTheta wh * AbsCosTheta wh = 0 ↔ wh.z * wh.z = 1 := by
    unfold AbsCosTheta
    rw [abs_mul_abs_self, sub_eq_zero]
    exact eq_comm
  refine ⟨hiff, ?_, ?_⟩
  · intro hz
    have hd := hiff.2 hz
    simp only [MicrofacetDistribution.D, hd, if_true]
  · intro hz
    have hd : 1 - AbsCosTheta wh * AbsCosTheta wh ≠ 0 := fun hc => hz (hiff.1 hc)
    refine ⟨hd, ?_⟩
    simp only [MicrofacetDistribution.D, hd, if_false]

end DelegationTheorems

section MaskTheorems

variable {F : Type} {n : Nat} {DG : Type}

theorem and_ALL_eq_iff (t : BxDFType) : t &&& BSDF_ALL = t ↔ t < 32 := by
  have hall : BSDF_ALL = 2 ^ 5 - 1 := by decide
  rw [hall, Nat.and_pow_two_sub_one_eq_mod]
  constructor
  · intro h
    rw [← h]
    exact Nat.mod_lt _ (by decide)
  · intro h
    exact Nat.mod_eq_of_lt h

theorem builtFromFlags_lt (t : BxDFType) (h : BxDFType.builtFromFlags t) : t < 32 := by
  obtain ⟨l, hl, rfl⟩ := h
  have key : ∀ (l : List BxDFType) (acc : Nat), acc < 2 ^ 5 →
      (∀ flag, flag ∈ l → flag ∈ baseFlags) →
      l.foldl (fun acc flag => acc ||| flag) acc < 2 ^ 5 := by
    intro l
    induction l with
    | nil => intro acc hacc _; exact hacc
    | cons flag l ih =>
      intro acc hacc hmem
      have hflag : flag < 2 ^ 5 := by
        have hb := hmem flag (List.mem_cons_self flag l)
        simp only [baseFlags, List.mem_cons, List.mem_singleton, List.not_mem_nil,
          or_false] at hb
        rcases hb with hb | hb | hb | hb | hb <;> subst hb <;> decide
      rw [List.foldl_cons]
      exact ih _ (Nat.or_lt_two_pow hacc hflag)
        fun g hg => hmem g (List.mem_cons_of_mem flag hg)
  exact key l 0 (by decide) hl

theorem NumComponentsFlags_eq_countP (a : PBRT.BSDF F n DG) (flags : BxDFType)
    (hw : a.WellFormed) :
    a.NumComponentsFlags flags = some (a.terms.countP fun t => t.MatchesFlags flags) := by
  unfold BSDF.NumComponentsFlags BSDF.terms
  rw [foldlM_slots_count a flags _ fun i hi => hw.2 i (List.mem_range.1 hi)]
  simp

theorem not_matches_without_flag (t flags flag : BxDFType) (hset : BxDFType.has t flag = true)
    (hmask : flags &&& flag = 0) : t &&& flags ≠ t := by
  intro hc
  have h0 : t &&& flag = 0 := by
    rw [← hc, Nat.and_assoc, hmask, Nat.and_zero]
  simp [BxDFType.has, h0] at hset

/-- C18: the derived masks are the unions of the base flags, which are the five
distinct single bits `1, 2, 4, 8, 16`.  A type built from the base flags
matches `BSDF_ALL`; so in an aggregate (in a reachable state) all of whose
terms have such types, `NumComponents(BSDF_ALL)` is `NumComponents()`.  A
term whose type has `BSDF_REFLECTION` set does not match
`BSDF_ALL_TRANSMISSION`, and one whose type has `BSDF_TRANSMISSION` set does
not match `BSDF_ALL_REFLECTION`. -/
theorem derived_masks_are_unions (a : PBRT.BSDF F n DG) (hw : a.WellFormed)
    (hb : ∀ t, t ∈ a.terms → BxDFType.builtFromFlags t.type) :
    (BSDF_ALL_REFLECTION
        = BSDF_REFLECTION ||| BSDF_DIFFUSE ||| BSDF_GLOSSY ||| BSDF_SPECULAR ∧
      BSDF_ALL_TRANSMISSION
        = BSDF_TRANSMISSION ||| BSDF_DIFFUSE ||| BSDF_GLOSSY ||| BSDF_SPECULAR ∧
      BSDF_ALL = BSDF_REFLECTION ||| BSDF_TRANSMISSION ||| BSDF_DIFFUSE ||| BSDF_GLOSSY
        ||| BSDF_SPECULAR) ∧
    (baseFlags = [2 ^ 0, 2 ^ 1, 2 ^ 2, 2 ^ 3, 2 ^ 4] ∧ baseFlags.Nodup) ∧
    (∀ t : BxDF F n, BxDFType.builtFromFlags t.type → t.MatchesFlags BSDF_ALL = true) ∧
    a.NumComponentsFlags BSDF_ALL = some a.NumComponents ∧
    (∀ t : BxDF F n, BxDFType.has t.type BSDF_REFLECTION = true →
      t.MatchesFlags BSDF_ALL_TRANSMISSION = false) ∧
    (∀ t : BxDF F n, BxDFType.has t.type BSDF_TRANSMISSION = true →
      t.MatchesFlags BSDF_ALL_REFLECTION = false) := by
  have hmatch : ∀ t : BxDF F n, BxDFType.builtFromFlags t.type →
      t.MatchesFlags BSDF_ALL = true := by
    intro t ht
    have hlt := builtFromFlags_lt t.type ht
    simp only [BxDF.MatchesFlags, beq_iff_eq]
    exact (and_ALL_eq_iff t.type).2 hlt
  refine ⟨⟨by decide, by decide, by decide⟩, ⟨by decide, by decide⟩, hmatch, ?_, ?_, ?_⟩
  · rw [NumComponentsFlags_eq_countP a BSDF_ALL hw]
    have hall : a.terms.countP (fun t => t.MatchesFlags BSDF_ALL) = a.terms.length :=
      List.countP_eq_length.2 fun t ht => hmatch t (hb t ht)
    rw [hall, terms_length a hw]
    rfl
  · intro t ht
    have hne := not_matches_without_flag t.type BSDF_ALL_TRANSMISSION BSDF_REFLECTION ht
      (by decide)
    simp only [BxDF.MatchesFlags, beq_eq_false_iff_ne]
    exact hne
  · intro t ht
    have hne := not_matches_without_flag t.type BSDF_ALL_REFLECTION BSDF_TRANSMISSION ht
      (by decide)
    simp only [BxDF.MatchesFlags, beq_eq_false_iff_ne]
    exact hne

/-- The aggregate `exampleTwo` is in a reachable state and the types of its two
terms are unions of base flags; both terms match `BSDF_ALL`. -/
theorem derived_masks_are_unions_witness :
    exampleTwo.WellFormed ∧
    (∀ t, t ∈ exampleTwo.terms → BxDFType.builtFromFlags t.type) ∧
    exampleTwo.NumComponentsFlags BSDF_ALL = some 2 := by
  have hw : exampleTwo.WellFormed := by decide
  have hterms : exampleTwo.terms = [exampleTerm, exampleGlass] := rfl
  have hb : ∀ t, t ∈ exampleTwo.terms → BxDFType.builtFromFlags t.type := by
    intro t ht
    rw [hterms] at ht
    simp only [List.mem_cons, List.mem_singleton, List.not_mem_nil, or_false] at ht
    rcases ht with ht | ht
    · subst ht
      exact ⟨[BSDF_REFLECTION, BSDF_DIFFUSE], by decide, rfl⟩
    · subst ht
      exact ⟨[BSDF_TRANSMISSION, BSDF_SPECULAR], by decide, rfl⟩
  exact ⟨hw, hb, (derived_masks_are_unions exampleTwo hw hb).2.2.2.1⟩

end MaskTheorems

section EqualExponentTheorems

theorem Anisotropic_D_equal_exponents {F : Type} [LinearOrderedField F] (INV_TWOPI : F)
    (sqrtf : F → F) (powf : F → F → F) (hsqrt : ∀ x : F, 0 ≤ x → sqrtf (x * x) = x)
    (e : F) (hlow : -2 ≤ e) (he : e ≤ 10000) (wh : Vector F) (hunit : Dot wh wh = 1)
    (hz : |wh.z| < 1) :
    (Anisotropic.Anisotropic e e).D INV_TWOPI sqrtf powf wh
      = (e + 2) * INV_TWOPI * powf |wh.z| e ∧
    (Blinn.Blinn e).D INV_TWOPI sqrtf powf wh = (e + 2) * INV_TWOPI * powf |wh.z| e := by
  have hclamp : (if e > 10000 ∨ isnan e = true then 10000 else e) = e := by
    rw [clamp_exponent, min_eq_left he]
  have hA : Anisotropic.Anisotropic e e = MicrofacetDistribution.Anisotropic e e := by
    simp only [Anisotropic.Anisotropic, hclamp]
  have hB : Blinn.Blinn e = MicrofacetDistribution.Blinn e := by
    simp only [Blinn.Blinn, hclamp]
  have hzz : |wh.z| * |wh.z| = wh.z * wh.z := abs_mul_abs_self _
  have hlt : wh.z * wh.z < 1 := by
    rw [← hzz]
    have h0 : 0 ≤ |wh.z| := abs_nonneg _
    nlinarith
  have hd : 1 - AbsCosTheta wh * AbsCosTheta wh ≠ 0 := by
    unfold AbsCosTheta
    rw [hzz]
    exact ne_of_gt (sub_pos.2 hlt)
  have hxy : wh.x * wh.x + wh.y * wh.y = 1 - AbsCosTheta wh * AbsCosTheta wh := by
    unfold AbsCosTheta
    rw [hzz]
    simp only [Dot] at hunit
    linarith
  have hexp : (e * wh.x * wh.x + e * wh.y * wh.y) / (1 - AbsCosTheta wh * AbsCosTheta wh)
      = e := by
    rw [div_eq_iff hd, ← hxy]
    ring
  constructor
  · rw [hA]
    simp only [MicrofacetDistribution.D, hd, if_false, hexp]
    rw [hsqrt (e + 2) (by linarith)]
    rfl
  · rw [hB]
    rfl

/-- C21, amended: in exact real arithmetic (`sqrtf` the real square root, `powf`
the real power, `INV_TWOPI = 1 / (2 pi)`), for every exponent `e` with
`-2 <= e <= 10000` and every unit half-vector `wh` with `|wh.z| < 1`, and with
`wh.z` not zero when `e` is negative (so that the power `|wh.z|^e` is that of a
positive base or has a non-negative exponent),
`Anisotropic(e, e).D(wh) = Blinn(e).D(wh) = (e + 2) / (2 pi) * |wh.z|^e`. -/
theorem Anisotropic_eq_Blinn_of_equal_exponents (e : ℝ) (hlow : -2 ≤ e) (he : e ≤ 10000)
    (wh : Vector ℝ) (hunit : Dot wh wh = 1) (hz : |wh.z| < 1)
    (hdef : 0 ≤ e ∨ wh.z ≠ 0) :
    (0 ≤ e ∨ 0 < |wh.z|) ∧
    (Anisotropic.Anisotropic e e).D (1 / (2 * Real.pi)) Real.sqrt (fun a b : ℝ => a ^ b) wh
      = (Blinn.Blinn e).D (1 / (2 * Real.pi)) Real.sqrt (fun a b : ℝ => a ^ b) wh ∧
    (Blinn.Blinn e).D (1 / (2 * Real.pi)) Real.sqrt (fun a b : ℝ => a ^ b) wh
      = (e + 2) / (2 * Real.pi) * |wh.z| ^ e := by
  obtain ⟨h1, h2⟩ := Anisotropic_D_equal_exponents (1 / (2 * Real.pi)) Real.sqrt
    (fun a b : ℝ => a ^ b) (fun x hx => Real.sqrt_mul_self hx) e hlow he wh hunit hz
  refine ⟨hdef.imp id fun h => abs_pos.2 h, h1.trans h2.symm, ?_⟩
  rw [h2]
  ring

/-- The exponent 2 and the unit half-vector `(3/5, 0, 4/5)` satisfy the
hypotheses, and the two densities agree there. -/
theorem Anisotropic_eq_Blinn_of_equal_exponents_witness :
    ((-2 : ℝ) ≤ 2 ∧ (2 : ℝ) ≤ 10000 ∧ Dot (⟨3 / 5, 0, 4 / 5⟩ : Vector ℝ) ⟨3 / 5, 0, 4 / 5⟩ = 1 ∧
      |(⟨3 / 5, 0, 4 / 5⟩ : Vector ℝ).z| < 1 ∧
      ((0 : ℝ) ≤ 2 ∨ (⟨3 / 5, 0, 4 / 5⟩ : Vector ℝ).z ≠ 0)) ∧
    (Anisotropic.Anisotropic (2 : ℝ) 2).D (1 / (2 * Real.pi)) Real.sqrt
        (fun a b : ℝ => a ^ b) ⟨3 / 5, 0, 4 / 5⟩
      = (Blinn.Blinn (2 : ℝ)).D (1 / (2 * Real.pi)) Real.sqrt
        (fun a b : ℝ => a ^ b) ⟨3 / 5, 0, 4 / 5⟩ := by
  have h1 : (-2 : ℝ) ≤ 2 := by norm_num
  have h2 : (2 : ℝ) ≤ 10000 := by norm_num
  have h3 : Dot (⟨3 / 5, 0, 4 / 5⟩ : Vector ℝ) ⟨3 / 5, 0, 4 / 5⟩ = 1 := by
    simp only [Dot]
    norm_num
  have h4 : |(⟨3 / 5, 0, 4 / 5⟩ : Vector ℝ).z| < 1 := by
    show |(4 / 5 : ℝ)| < 1
    rw [abs_of_pos (by norm_num)]
    norm_num
  have h5 : (0 : ℝ) ≤ 2 ∨ (⟨3 / 5, 0, 4 / 5⟩ : Vector ℝ).z ≠ 0 := Or.inl (by norm_num)
  exact ⟨⟨h1, h2, h3, h4, h5⟩,
    (Anisotropic_eq_Blinn_of_equal_exponents 2 h1 h2 ⟨3 / 5, 0, 4 / 5⟩ h3 h4 h5).2.1⟩

/-- C21 as stated fails: the exponent `-3` is at most 10000 and `(3/5, 0, 4/5)`
is a unit half-vector with `|wh.z| < 1`, but there `Anisotropic(-3, -3).D` is
positive (its factor is `sqrtf((-1) * (-1)) = 1`) while `Blinn(-3).D` is
negative (its factor is `-3 + 2 = -1`). -/
theorem Anisotropic_ne_Blinn_negative_exponent :
    (-3 : ℝ) ≤ 10000 ∧ Dot (⟨3 / 5, 0, 4 / 5⟩ : Vector ℝ) ⟨3 / 5, 0, 4 / 5⟩ = 1 ∧
    |(⟨3 / 5, 0, 4 / 5⟩ : Vector ℝ).z| < 1 ∧
    (Blinn.Blinn (-3 : ℝ)).D (1 / (2 * Real.pi)) Real.sqrt
        (fun a b : ℝ => a ^ b) ⟨3 / 5, 0, 4 / 5⟩ < 0 ∧
    0 < (Anisotropic.Anisotropic (-3 : ℝ) (-3)).D (1 / (2 * Real.pi)) Real.sqrt
        (fun a b : ℝ => a ^ b) ⟨3 / 5, 0, 4 / 5⟩ ∧
    (Anisotropic.Anisotropic (-3 : ℝ) (-3)).D (1 / (2 * Real.pi)) Real.sqrt
        (fun a b : ℝ => a ^ b) ⟨3 / 5, 0, 4 / 5⟩
      ≠ (Blinn.Blinn (-3 : ℝ)).D (1 / (2 * Real.pi)) Real.sqrt
        (fun a b : ℝ => a ^ b) ⟨3 / 5, 0, 4 / 5⟩ := by
  have hmin : min (-3 : ℝ) 10000 = -3 := min_eq_left (by norm_num)
  have hA : Anisotropic.Anisotropic (-3 : ℝ) (-3)
      = MicrofacetDistribution.Anisotropic (-3) (-3) := by
    simp only [Anisotropic.Anisotropic, clamp_exponent, hmin]
  have hB : Blinn.Blinn (-3 : ℝ) = MicrofacetDistribution.Blinn (-3) := by
    simp only [Blinn.Blinn, clamp_exponent, hmin]
  have hpi : 0 < 1 / (2 * Real.pi) := by
    have := Real.pi_pos
    positivity
  have habs : |(4 / 5 : ℝ)| = 4 / 5 := abs_of_pos (by norm_num)
  have hpB : 0 < |(4 / 5 : ℝ)| ^ (-3 : ℝ) := by
    rw [habs]
    exact Real.rpow_pos_of_pos (by norm_num) _
  have hd : (1 : ℝ) - |(4 / 5 : ℝ)| * |(4 / 5 : ℝ)| ≠ 0 := by
    rw [habs]
    norm_num
  have hpA : 0 < |(4 / 5 : ℝ)| ^
      (((-3 : ℝ) * (3 / 5) * (3 / 5) + (-3) * 0 * 0) / (1 - |(4 / 5 : ℝ)| * |(4 / 5 : ℝ)|)) := by
    rw [habs]
    exact Real.rpow_pos_of_pos (by norm_num) _
  have hs : Real.sqrt (((-3 : ℝ) + 2) * (-3 + 2)) = 1 := by
    rw [show ((-3 : ℝ) + 2) * (-3 + 2) = 1 * 1 by norm_num]
    exact Real.sqrt_mul_self (by norm_num)
  have hBneg : (Blinn.Blinn (-3 : ℝ)).D (1 / (2 * Real.pi)) Real.sqrt
      (fun a b : ℝ => a ^ b) ⟨3 / 5, 0, 4 / 5⟩ < 0 := by
    rw [hB]
    simp only [MicrofacetDistribution.D, AbsCosTheta]
    have hm := mul_pos hpi hpB
    nlinarith
  have hApos : 0 < (Anisotropic.Anisotropic (-3 : ℝ) (-3)).D (1 / (2 * Real.pi)) Real.sqrt
      (fun a b : ℝ => a ^ b) ⟨3 / 5, 0, 4 / 5⟩ := by
    rw [hA]
    simp only [MicrofacetDistribution.D, AbsCosTheta, hd, if_false, hs, one_mul]
    exact mul_pos hpi hpA
  refine ⟨by norm_num, ?_, ?_, hBneg, hApos, ?_⟩
  · simp only [Dot]
    norm_num
  · show |(4 / 5 : ℝ)| < 1
    rw [habs]
    norm_num
  · exact ne_of_gt (lt_trans hBneg hApos)

end EqualExponentTheorems

section SubsetTheorems

variable {F : Type} {n : Nat} {DG : Type}

theorem and_eq_self_iff_testBit (t flags : Nat) :
    t &&& flags = t ↔ ∀ i, t.testBit i = true → flags.testBit i = true := by
  constructor
  · intro h i hi
    have hbit := congrArg (fun x => Nat.testBit x i) h
    simp only [Nat.testBit_and, hi, Bool.true_and] at hbit
    exact hbit
  · intro h
    apply Nat.eq_of_testBit_eq
    intro i
    rw [Nat.testBit_and]
    cases hti : t.testBit i
    · rfl
    · rw [h i hti]
      rfl

theorem union_and_eq_iff (d s flags : Nat) :
    (d ||| s) &&& flags = d ||| s ↔ flags &&& d = d ∧ flags &&& s = s := by
  rw [Nat.and_comm flags d, Nat.and_comm flags s, and_eq_self_iff_testBit,
    and_eq_self_iff_testBit, and_eq_self_iff_testBit]
  constructor
  · intro h
    constructor
    · intro i hi
      exact h i (by rw [Nat.testBit_or, hi]; rfl)
    · intro i hi
      exact h i (by rw [Nat.testBit_or, hi, Bool.or_true])
  · rintro ⟨hd, hs⟩ i hi
    rw [Nat.testBit_or, Bool.or_eq_true] at hi
    rcases hi with hi | hi
    · exact hd i hi
    · exact hs i hi

theorem type_of_small_oneFlagPerAxis : ∀ t, t < 32 → BxDFType.oneFlagPerAxis t →
    ∀ d, d ∈ transportFlags → ∀ s, s ∈ sharpnessFlags →
      BxDFType.has t d = true → BxDFType.has t s = true → t = d ||| s := by
  decide

theorem union_oneFlagPerAxis : ∀ d, d ∈ transportFlags → ∀ s, s ∈ sharpnessFlags →
    BxDFType.oneFlagPerAxis (d ||| s) ∧ BxDFType.has (d ||| s) d = true ∧
      BxDFType.has (d ||| s) s = true ∧ d ||| s < 32 := by
  decide

theorem exists_flag_of_exactlyOne (t : BxDFType) (axis : List BxDFType)
    (h : BxDFType.exactlyOne t axis) : ∃ flag, flag ∈ axis ∧ BxDFType.has t flag = true := by
  unfold BxDFType.exactlyOne at h
  have hne : axis.filter (fun flag => BxDFType.has t flag) ≠ [] := by
    intro hc
    rw [hc] at h
    cases h
  obtain ⟨flag, hflag⟩ := List.exists_mem_of_ne_nil _ hne
  exact ⟨flag, (List.mem_filter.1 hflag).1, (List.mem_filter.1 hflag).2⟩

theorem not_matches_of_axis_missing (t : BxDF F n) (flags : BxDFType) (axis : List BxDFType)
    (hone : BxDFType.exactlyOne t.type axis)
    (hmiss : ∀ flag, flag ∈ axis → BxDFType.has flags flag = false) :
    t.MatchesFlags flags = false := by
  obtain ⟨flag, hmem, hset⟩ := exists_flag_of_exactlyOne t.type axis hone
  have hz : flags &&& flag = 0 := by
    have hf := hmiss flag hmem
    simpa [BxDFType.has] using hf
  have hne := not_matches_without_flag t.type flags flag hset hz
  simp only [BxDF.MatchesFlags, beq_eq_false_iff_ne]
  exact hne

/-- C22: `MatchesFlags(flags)` holds exactly when every bit of the type is a bit
of `flags`.  A type with exactly one transport flag `d` and exactly one
sharpness flag `s` (a type of the enumeration, built from its base flags) is
`d | s`, and such a term matches `flags` if and only if `flags` contains `d`
and contains `s`.  So in an aggregate (in a reachable state) whose terms have
one flag on each axis, `NumComponents(flags)` is 0 for every `flags` without a
transport flag, such as `BSDF_DIFFUSE`, and for every `flags` without a
sharpness flag, such as `BSDF_REFLECTION`. -/
theorem matching_needs_both_axes (a : PBRT.BSDF F n DG) (hw : a.WellFormed)
    (hterms : ∀ t, t ∈ a.terms → BxDFType.oneFlagPerAxis t.type) :
    (∀ (t : BxDF F n) (flags : BxDFType),
      t.MatchesFlags flags = true ↔ ∀ i, t.type.testBit i = true → flags.testBit i = true) ∧
    (∀ (t : BxDF F n) (d s : BxDFType), BxDFType.builtFromFlags t.type →
      BxDFType.oneFlagPerAxis t.type → d ∈ transportFlags → s ∈ sharpnessFlags →
      BxDFType.has t.type d = true → BxDFType.has t.type s = true →
      t.type = d ||| s ∧
      ∀ flags, (t.MatchesFlags flags = true ↔ flags &&& d = d ∧ flags &&& s = s)) ∧
    (∀ (t : BxDF F n) (d s : BxDFType), d ∈ transportFlags → s ∈ sharpnessFlags →
      t.type = d ||| s →
      BxDFType.oneFlagPerAxis t.type ∧
      ∀ flags, (t.MatchesFlags flags = true ↔ flags &&& d = d ∧ flags &&& s = s)) ∧
    (∀ flags, ((∀ d, d ∈ transportFlags → BxDFType.has flags d = false) ∨
        (∀ s, s ∈ sharpnessFlags → BxDFType.has flags s = false)) →
      a.NumComponentsFlags flags = some 0) ∧
    a.NumComponentsFlags BSDF_DIFFUSE = some 0 ∧
    a.NumComponentsFlags BSDF_REFLECTION = some 0 := by
  have hunion : ∀ (t : BxDF F n) (d s : BxDFType), t.type = d ||| s →
      ∀ flags, (t.MatchesFlags flags = true ↔ flags &&& d = d ∧ flags &&& s = s) := by
    intro t d s ht flags
    simp only [BxDF.MatchesFlags, beq_iff_eq]
    rw [ht]
    exact union_and_eq_iff d s flags
  have hzero : ∀ flags, ((∀ d, d ∈ transportFlags → BxDFType.has flags d = false) ∨
        (∀ s, s ∈ sharpnessFlags → BxDFType.has flags s = false)) →
      a.NumComponentsFlags flags = some 0 := by
    intro flags hmiss
    rw [NumComponentsFlags_eq_countP a flags hw]
    congr 1
    rw [List.countP_eq_zero]
    intro t ht
    rcases hmiss with hmiss | hmiss
    · rw [not_matches_of_axis_missing t flags transportFlags (hterms t ht).1 hmiss]
      simp
    · rw [not_matches_of_axis_missing t flags sharpnessFlags (hterms t ht).2 hmiss]
      simp
  refine ⟨?_, ?_, ?_, hzero, hzero _ (Or.inl (by decide)), hzero _ (Or.inr (by decide))⟩
  · intro t flags
    simp only [BxDF.MatchesFlags, beq_iff_eq]
    exact and_eq_self_iff_testBit t.type flags
  · intro t d s hbuilt hone hd hs hhd hhs
    have ht := type_of_small_oneFlagPerAxis t.type (builtFromFlags_lt t.type hbuilt) hone
      d hd s hs hhd hhs
    exact ⟨ht, hunion t d s ht⟩
  · intro t d s hd hs ht
    refine ⟨?_, hunion t d s ht⟩
    rw [ht]
    exact (union_oneFlagPerAxis d hd s hs).1

/-- The aggregate `exampleTwo` is in a reachable state and each of its two terms
has one flag on each axis; none of them matches `BSDF_DIFFUSE` alone or
`BSDF_REFLECTION` alone. -/
theorem matching_needs_both_axes_witness :
    exampleTwo.WellFormed ∧
    (∀ t, t ∈ exampleTwo.terms → BxDFType.oneFlagPerAxis t.type) ∧
    exampleTwo.NumComponentsFlags BSDF_DIFFUSE = some 0 ∧
    exampleTwo.NumComponentsFlags BSDF_REFLECTION = some 0 := by
  have hw : exampleTwo.WellFormed := by decide
  have hterms : exampleTwo.terms = [exampleTerm, exampleGlass] := rfl
  have hone : ∀ t, t ∈ exampleTwo.terms → BxDFType.oneFlagPerAxis t.type := by
    intro t ht
    rw [hterms] at ht
    simp only [List.mem_cons, List.mem_singleton, List.not_mem_nil, or_false] at ht
    rcases ht with ht | ht
    · subst ht
      decide
    · subst ht
      decide
  have hc := matching_needs_both_axes exampleTwo hw hone
  exact ⟨hw, hone, hc.2.2.2.2.1, hc.2.2.2.2.2⟩

end SubsetTheorems

section RoundingTheorems

theorem roundHalfEven_nonpos (q : ℚ) (h : q ≤ 0) : roundHalfEven q ≤ 0 := by
  have hf : ⌊q⌋ ≤ 0 := Int.floor_nonpos h
  have hfl : (⌊q⌋ : ℚ) ≤ q := Int.floor_le q
  simp only [roundHalfEven]
  split_ifs with h1 h2 h3
  · exact hf
  · by_contra hc
    have h0 : ⌊q⌋ = 0 := by omega
    rw [h0] at h2
    simp only [Int.cast_zero, sub_zero] at h2
    linarith
  · exact hf
  · by_contra hc
    have h0 : ⌊q⌋ = 0 := by omega
    rw [h0] at h1
    simp only [Int.cast_zero, sub_zero] at h1
    linarith

theorem roundHalfEven_pos (q : ℚ) (h : 1 / 2 < q) : 1 ≤ roundHalfEven q := by
  have hf : 0 ≤ ⌊q⌋ := Int.floor_nonneg.2 (by linarith)
  simp only [roundHalfEven]
  split_ifs with h1 h2 h3
  · by_contra hc
    have h0 : ⌊q⌋ = 0 := by omega
    rw [h0] at h1
    simp only [Int.cast_zero, sub_zero] at h1
    linarith
  · omega
  · by_contra hc
    have h0 : ⌊q⌋ = 0 := by omega
    rw [h0] at h1 h2
    simp only [Int.cast_zero, sub_zero] at h1 h2
    linarith
  · omega

theorem roundHalfEven_small (q : ℚ) (h0 : 0 ≤ q) (h1 : q ≤ 1 / 2) : roundHalfEven q = 0 := by
  have hf : ⌊q⌋ = 0 := Int.floor_eq_zero_iff.2 ⟨h0, by linarith⟩
  simp only [roundHalfEven, hf, Int.cast_zero, sub_zero]
  split_ifs with h2 h3 h4
  · rfl
  · linarith
  · rfl
  · exact absurd rfl h4

theorem roundHalfEven_intCast (z : ℤ) : roundHalfEven (z : ℚ) = z := by
  simp only [roundHalfEven, Int.floor_intCast, sub_self]
  norm_num

theorem Float32.round_eq (x : ℚ) :
    Float32.round x
      = (roundHalfEven (x / 2 ^ (max (Int.log 2 |x|) (-126) - 23)) : ℚ)
          * 2 ^ (max (Int.log 2 |x|) (-126) - 23) := rfl

theorem Float32.round_pos_iff (x : ℚ) : 0 < Float32.round x ↔ (2 : ℚ) ^ (-150 : ℤ) < x := by
  have h150 : (0 : ℚ) < 2 ^ (-150 : ℤ) := by positivity
  have hupos : (0 : ℚ) < 2 ^ (max (Int.log 2 |x|) (-126) - 23) := by positivity
  rw [Float32.round_eq, mul_pos_iff_of_pos_right hupos, Int.cast_pos]
  by_cases hx : x ≤ 0
  · constructor
    · intro h
      have hq : x / 2 ^ (max (Int.log 2 |x|) (-126) - 23) ≤ 0 :=
        div_nonpos_of_nonpos_of_nonneg hx (le_of_lt hupos)
      have hr := roundHalfEven_nonpos _ hq
      omega
    · intro h
      linarith
  · have hxpos : 0 < x := lt_of_not_le hx
    rw [abs_of_pos hxpos]
    by_cases hL : Int.log 2 x ≤ -126
    · rw [max_eq_right hL]
      have hu : (2 : ℚ) ^ ((-126 : ℤ) - 23) = 2 * 2 ^ (-150 : ℤ) := by
        rw [show ((-126 : ℤ) - 23) = 1 + (-150) by norm_num, zpow_add₀ (by norm_num), zpow_one]
      rw [hu]
      generalize (2 : ℚ) ^ (-150 : ℤ) = c at h150 ⊢
      have hden : (0 : ℚ) < 2 * c := by positivity
      constructor
      · intro h
        by_contra hc
        have hle : x ≤ c := le_of_not_lt hc
        have hq0 : 0 ≤ x / (2 * c) := le_of_lt (div_pos hxpos hden)
        have hq1 : x / (2 * c) ≤ 1 / 2 := by
          rw [div_le_iff₀ hden]
          linarith
        rw [roundHalfEven_small _ hq0 hq1] at h
        exact lt_irrefl _ h
      · intro h
        have hq : 1 / 2 < x / (2 * c) := by
          rw [lt_div_iff₀ hden]
          linarith
        have hr := roundHalfEven_pos _ hq
        omega
    · have hLgt : -126 < Int.log 2 x := lt_of_not_le hL
      rw [max_eq_left (le_of_lt hLgt)]
      have hlow : (2 : ℚ) ^ Int.log 2 x ≤ x := by
        have hz : ((2 : ℕ) : ℚ) ^ Int.log 2 x ≤ x :=
          Int.zpow_log_le_self (by norm_num) hxpos
        simpa using hz
      have hsplit : (2 : ℚ) ^ Int.log 2 x = 2 ^ (23 : ℤ) * 2 ^ (Int.log 2 x - 23) := by
        rw [← zpow_add₀ (by norm_num)]
        congr 1
        ring
      have hden : (0 : ℚ) < 2 ^ (Int.log 2 x - 23) := by positivity
      have h23 : (1 : ℚ) ≤ 2 ^ (23 : ℤ) := by norm_num
      have hq : 1 / 2 < x / 2 ^ (Int.log 2 x - 23) := by
        rw [lt_div_iff₀ hden]
        nlinarith
      have hr := roundHalfEven_pos _ hq
      have hbig : (2 : ℚ) ^ (-150 : ℤ) < 2 ^ Int.log 2 x :=
        zpow_lt_zpow_right₀ (by norm_num) (by omega)
      constructor
      · intro _
        exact lt_of_lt_of_le hbig hlow
      · intro _
        omega

theorem Float32.round_two_zpow (k : ℤ) (hk : -126 ≤ k) :
    Float32.round ((2 : ℚ) ^ k) = 2 ^ k := by
  have hpos : (0 : ℚ) < 2 ^ k := by positivity
  have hlog : Int.log 2 ((2 : ℚ) ^ k) = k := by
    have hz : Int.log 2 (((2 : ℕ) : ℚ) ^ k) = k := Int.log_zpow (by norm_num) k
    simpa using hz
  have hq : (2 : ℚ) ^ k / 2 ^ (k - 23) = ((8388608 : ℤ) : ℚ) := by
    rw [← zpow_sub₀ (by norm_num), show k - (k - 23) = 23 by ring]
    norm_num
  rw [Float32.round_eq, abs_of_pos hpos, hlog, max_eq_left hk, hq, roundHalfEven_intCast]
  rw [show (((8388608 : ℤ) : ℚ)) = 2 ^ (23 : ℤ) by norm_num, ← zpow_add₀ (by norm_num)]
  congr 1
  ring

theorem Float32.round_zero : Float32.round 0 = 0 := by
  rw [Float32.round_eq, zero_div]
  have h0 : roundHalfEven 0 = 0 := roundHalfEven_small 0 (le_refl _) (by norm_num)
  rw [h0]
  simp

theorem SameHemisphere_exact {F : Type} [LinearOrderedField F] (w wp : Vector F) :
    (SameHemisphere (fun a b => a * b) w wp = true ↔
      (0 < w.z ∧ 0 < wp.z) ∨ (w.z < 0 ∧ wp.z < 0)) ∧
    (w.z = 0 ∨ wp.z = 0 → SameHemisphere (fun a b => a * b) w wp = false) ∧
    SameHemisphere (fun a b => a * b) w wp = SameHemisphere (fun a b => a * b) wp w := by
  refine ⟨?_, ?_, ?_⟩
  · unfold SameHemisphere
    rw [decide_eq_true_iff]
    exact mul_pos_iff
  · intro h
    unfold SameHemisphere
    rw [decide_eq_false_iff_not]
    rcases h with h | h <;> simp [h]
  · unfold SameHemisphere
    simp only [mul_comm]

theorem SameHemisphere_float_iff (w wp : Vector ℚ) :
    SameHemisphere Float32.mul w wp = true ↔ (2 : ℚ) ^ (-150 : ℤ) < w.z * wp.z := by
  unfold SameHemisphere Float32.mul
  rw [decide_eq_true_iff]
  exact Float32.round_pos_iff _

/-- C10, amended: with the product of the type `float` (finite z-components),
`SameHemisphere(w, wp)` is true if and only if the exact product
`w.z * wp.z` is greater than `2 ^ (-150)`, that is, the rounded product is not
zero; so it is true only if `w.z` and `wp.z` are both positive or both
negative, and it is true for such a pair unless their product underflows.  In
exact arithmetic it is true exactly when both are positive or both negative.
In both cases it is false when one of the two is zero, and it does not depend
on the order of its arguments. -/
theorem SameHemisphere_rounded_product {F : Type} [LinearOrderedField F] (u up : Vector F)
    (w wp : Vector ℚ) :
    (SameHemisphere Float32.mul w wp = true ↔ (2 : ℚ) ^ (-150 : ℤ) < w.z * wp.z) ∧
    (SameHemisphere Float32.mul w wp = true →
      (0 < w.z ∧ 0 < wp.z) ∨ (w.z < 0 ∧ wp.z < 0)) ∧
    (((0 < w.z ∧ 0 < wp.z) ∨ (w.z < 0 ∧ wp.z < 0)) → (2 : ℚ) ^ (-150 : ℤ) < w.z * wp.z →
      SameHemisphere Float32.mul w wp = true) ∧
    (w.z = 0 ∨ wp.z = 0 → SameHemisphere Float32.mul w wp = false) ∧
    SameHemisphere Float32.mul w wp = SameHemisphere Float32.mul wp w ∧
    (SameHemisphere (fun a b => a * b) u up = true ↔
      (0 < u.z ∧ 0 < up.z) ∨ (u.z < 0 ∧ up.z < 0)) ∧
    (u.z = 0 ∨ up.z = 0 → SameHemisphere (fun a b => a * b) u up = false) ∧
    SameHemisphere (fun a b => a * b) u up = SameHemisphere (fun a b => a * b) up u := by
  have h150 : (0 : ℚ) < 2 ^ (-150 : ℤ) := by positivity
  have hiff := SameHemisphere_float_iff w wp
  obtain ⟨e1, e2, e3⟩ := SameHemisphere_exact u up
  refine ⟨hiff, ?_, ?_, ?_, ?_, e1, e2, e3⟩
  · intro h
    exact mul_pos_iff.1 (lt_trans h150 (hiff.1 h))
  · intro _ h
    exact hiff.2 h
  · intro h
    rw [Bool.eq_false_iff]
    intro hc
    have hp := lt_trans h150 (hiff.1 hc)
    rcases h with h | h <;> simp [h] at hp
  · unfold SameHemisphere Float32.mul
    rw [mul_comm]

/-- C10 as stated fails for the type `float`: `2 ^ (-100)` is a positive value
of the type, and so are the other coordinates 1 and 0 of the direction
`(1, 0, 2 ^ (-100))`; the product of `2 ^ (-100)` with itself is rounded to
zero, so `SameHemisphere` is false of that direction and itself although both
z-components are strictly positive. -/
theorem SameHemisphere_false_on_underflow :
    (Float32.isFloat 1 ∧ Float32.isFloat 0 ∧ Float32.isFloat ((2 : ℚ) ^ (-100 : ℤ))) ∧
    0 < (⟨1, 0, (2 : ℚ) ^ (-100 : ℤ)⟩ : Vector ℚ).z ∧
    Float32.mul ((2 : ℚ) ^ (-100 : ℤ)) ((2 : ℚ) ^ (-100 : ℤ)) = 0 ∧
    SameHemisphere Float32.mul ⟨1, 0, (2 : ℚ) ^ (-100 : ℤ)⟩ ⟨1, 0, (2 : ℚ) ^ (-100 : ℤ)⟩
      = false ∧
    ¬ (SameHemisphere Float32.mul ⟨1, 0, (2 : ℚ) ^ (-100 : ℤ)⟩ ⟨1, 0, (2 : ℚ) ^ (-100 : ℤ)⟩
        = true ↔
      (0 < (⟨1, 0, (2 : ℚ) ^ (-100 : ℤ)⟩ : Vector ℚ).z ∧
          0 < (⟨1, 0, (2 : ℚ) ^ (-100 : ℤ)⟩ : Vector ℚ).z) ∨
        ((⟨1, 0, (2 : ℚ) ^ (-100 : ℤ)⟩ : Vector ℚ).z < 0 ∧
          (⟨1, 0, (2 : ℚ) ^ (-100 : ℤ)⟩ : Vector ℚ).z < 0)) := by
  have hz : (0 : ℚ) < 2 ^ (-100 : ℤ) := by positivity
  have hprod : (2 : ℚ) ^ (-100 : ℤ) * 2 ^ (-100 : ℤ) = 2 ^ (-200 : ℤ) := by
    rw [← zpow_add₀ (by norm_num)]
    norm_num
  have hsmall : ¬ (2 : ℚ) ^ (-150 : ℤ) < 2 ^ (-200 : ℤ) := by
    rw [not_lt]
    exact zpow_le_zpow_right₀ (by norm_num) (by norm_num)
  have hnot : ¬ SameHemisphere Float32.mul ⟨1, 0, (2 : ℚ) ^ (-100 : ℤ)⟩
      ⟨1, 0, (2 : ℚ) ^ (-100 : ℤ)⟩ = true := by
    rw [SameHemisphere_float_iff]
    show ¬ (2 : ℚ) ^ (-150 : ℤ) < 2 ^ (-100 : ℤ) * 2 ^ (-100 : ℤ)
    rw [hprod]
    exact hsmall
  have hone : Float32.isFloat 1 := by
    constructor
    · have h := Float32.round_two_zpow 0 (by norm_num)
      simpa using h
    · norm_num
  have hzero : Float32.isFloat 0 := ⟨Float32.round_zero, by norm_num⟩
  have htiny : Float32.isFloat ((2 : ℚ) ^ (-100 : ℤ)) := by
    constructor
    · exact Float32.round_two_zpow (-100) (by norm_num)
    · rw [abs_of_pos hz]
      calc (2 : ℚ) ^ (-100 : ℤ) ≤ 2 ^ (0 : ℤ) :=
            zpow_le_zpow_right₀ (by norm_num) (by norm_num)
        _ < 2 ^ 128 := by norm_num
  have hmul : Float32.mul ((2 : ℚ) ^ (-100 : ℤ)) ((2 : ℚ) ^ (-100 : ℤ)) = 0 := by
    have hle : ¬ 0 < Float32.round ((2 : ℚ) ^ (-200 : ℤ)) := by
      rw [Float32.round_pos_iff]
      exact hsmall
    have hge : 0 ≤ Float32.round ((2 : ℚ) ^ (-200 : ℤ)) := by
      rw [Float32.round_eq]
      have hq : (0 : ℚ) ≤ 2 ^ (-200 : ℤ)
          / 2 ^ (max (Int.log 2 |(2 : ℚ) ^ (-200 : ℤ)|) (-126) - 23) := by positivity
      have hr : 0 ≤ roundHalfEven ((2 : ℚ) ^ (-200 : ℤ)
          / 2 ^ (max (Int.log 2 |(2 : ℚ) ^ (-200 : ℤ)|) (-126) - 23)) := by
        simp only [roundHalfEven]
        have hf := Int.floor_nonneg.2 hq
        split_ifs <;> omega
      have hc : (0 : ℚ) ≤ (roundHalfEven ((2 : ℚ) ^ (-200 : ℤ)
          / 2 ^ (max (Int.log 2 |(2 : ℚ) ^ (-200 : ℤ)|) (-126) - 23)) : ℚ) := by
        exact_mod_cast hr
      positivity
    unfold Float32.mul
    rw [hprod]
    exact le_antisymm (le_of_not_lt hle) hge
  refine ⟨⟨hone, hzero, htiny⟩, hz, hmul, ?_, ?_⟩
  · rw [Bool.eq_false_iff]
    exact hnot
  · intro hiff
    exact hnot (hiff.2 (Or.inl ⟨hz, hz⟩))

end RoundingTheorems

end PBRT
